/-
Verification of the SchemaForgeAI SQL core: the DDL parser / implicit
relationship inferrer (`SchemaParser`, services/schemaParser.ts), the dialect
syntax mapper (`SQLSyntaxMapper`, services/database/sqlSyntaxMapper.ts) and the
schema-to-SQL exporter (`DiagramService.exportSchemaAsSQL`,
services/diagramService.ts).

The TypeScript code is embedded shallowly: strings are processed as `List Char`
with structural recursion so that every definition evaluates by `decide`/`rfl`.
JavaScript regular expressions are embedded as the deterministic scanners they
denote (each regex used by the source backtracks trivially because adjacent
character classes are disjoint, so maximal-munch scanning is exact).
JavaScript case conversion agrees with Lean's ASCII `Char.toUpper`/`Char.toLower`
on the ASCII inputs considered here; `\w`, `\s` and `.` use their ECMA meaning
(`\w` = ASCII word chars, `.` excludes line terminators).
-/
import Mathlib

set_option maxRecDepth 20000

/-! ## Character classes (ECMA regex classes, restricted to ASCII) -/

/-- ECMA `\s` (the whitespace characters relevant to ASCII input). -/
def isWsChar (c : Char) : Bool :=
  c = ' ' || c = '\t' || c = '\n' || c = '\r' || c = '\x0b' || c = '\x0c'

/-- ECMA `\w`: ASCII letters, digits, underscore. -/
def isWordChar (c : Char) : Bool :=
  c.isAlpha || c.isDigit || c = '_'

/-- ECMA line terminators that `.` does not match (ASCII ones). -/
def isLineTerm (c : Char) : Bool :=
  c = '\n' || c = '\r'

def toUpperStr (s : String) : String := String.mk (s.data.map Char.toUpper)

def toLowerStr (s : String) : String := String.mk (s.data.map Char.toLower)

/-- `pat` is a prefix of `l` (case sensitive). -/
def hasPrefixL : List Char → List Char → Bool
  | [], _ => true
  | _ :: _, [] => false
  | p :: ps, c :: cs => p = c && hasPrefixL ps cs

/-- JS `String.prototype.includes` as a substring test. -/
def containsSubL (pat : List Char) : List Char → Bool
  | [] => pat.isEmpty
  | l@(_ :: t) => hasPrefixL pat l || containsSubL pat t

def containsSub (hay pat : String) : Bool := containsSubL pat.data hay.data

def hasPrefixS (hay pat : String) : Bool := hasPrefixL pat.data hay.data

def hasSuffixS (hay pat : String) : Bool :=
  hasPrefixL pat.data.reverse hay.data.reverse

/-- JS `String.prototype.trim` (on the ASCII whitespace set). -/
def trimL (l : List Char) : List Char :=
  ((l.dropWhile isWsChar).reverse.dropWhile isWsChar).reverse

def trimS (s : String) : String := String.mk (trimL s.data)

/-- JS `str.replace(pat, "")` with a string pattern: remove the FIRST
occurrence of `pat` only. -/
def removeFirstL (pat : List Char) : List Char → List Char
  | [] => []
  | l@(c :: rest) => if hasPrefixL pat l then l.drop pat.length
                     else c :: removeFirstL pat rest

def removeFirstS (s pat : String) : String := String.mk (removeFirstL pat.data s.data)

/-- Join a list of strings with a separator (JS `Array.prototype.join`). -/
def joinSep (sep : String) : List String → String
  | [] => ""
  | [x] => x
  | x :: xs => x ++ sep ++ joinSep sep xs

/-! ## Data model (services/schemaParser.ts interfaces) -/

/-- `TableField.foreignKey`: the inline `{ table, column }` object. -/
structure ForeignKeyRef where
  table : String
  column : String
deriving DecidableEq, Repr

/-- `interface TableField`. -/
structure TableField where
  name : String
  type : String
  nullable : Bool
  primaryKey : Bool
  foreignKey : Option ForeignKeyRef
  defaultValue : Option String
deriving DecidableEq, Repr

/-- `interface TableSchema`. -/
structure TableSchema where
  name : String
  fields : List TableField
deriving DecidableEq, Repr

/-- `interface SchemaRelationship`. -/
structure SchemaRelationship where
  fromTable : String
  fromField : String
  toTable : String
  toField : String
deriving DecidableEq, Repr

/-- `interface ParsedSchema`. -/
structure ParsedSchema where
  tables : List TableSchema
  relationships : List SchemaRelationship
deriving DecidableEq, Repr

/-! ## SchemaParser: cleanup phase

`const cleanSQL = sql.replace(reComment, '').replace(reWs, ' ').trim();` where
`reComment` is the multiline-global regex matching `--` up to end of line and
`reWs` is the global regex `\s+`. -/

/-- Skip the body of a `--` comment: `.` does not match line terminators and
`$` in multiline mode is zero width, so the terminator itself survives. -/
def skipToEol : List Char → List Char
  | [] => []
  | c :: rest => if isLineTerm c then c :: rest else skipToEol rest

/-- The comment-removal replace, as a three-state scanner: state 0 = normal,
state 1 = one pending `-` seen, state 2 = inside a comment body (discarding up
to the next line terminator, which itself survives since `$` is zero width and
`.` cannot match it).  Truncates every line at its first `--`. -/
def stripCommentsAux (state : Nat) : List Char → List Char
  | [] => if state = 1 then ['-'] else []
  | c :: rest =>
    if state = 2 then
      (if isLineTerm c then c :: stripCommentsAux 0 rest else stripCommentsAux 2 rest)
    else if state = 1 then
      (if c = '-' then stripCommentsAux 2 rest else '-' :: c :: stripCommentsAux 0 rest)
    else
      (if c = '-' then stripCommentsAux 1 rest else c :: stripCommentsAux 0 rest)

def stripComments (l : List Char) : List Char := stripCommentsAux 0 l

/-- The whitespace-collapsing replace, as a two-state scanner (state `true`:
inside a whitespace run whose single replacement space was already emitted).
Each `\s+` run becomes one space. -/
def collapseWsAux : Bool → List Char → List Char
  | _, [] => []
  | inRun, c :: rest =>
    if isWsChar c then
      if inRun then collapseWsAux true rest
      else ' ' :: collapseWsAux true rest
    else c :: collapseWsAux false rest

def collapseWs (l : List Char) : List Char := collapseWsAux false l

/-- The `cleanSQL` value inside `parseSQL`, as a character list. -/
def cleanSQL (sql : String) : List Char :=
  trimL (collapseWs (stripComments sql.data))

/-! ## SchemaParser: the `CREATE TABLE` statement scanner

`const createTableRegex = /CREATE\s+TABLE\s+(\w+)\s*\((.*?)\);/gi;` run with
`exec` in a loop.  All its quantifiers are determinate: `\s+`/`\w+` are
followed by characters outside their class, and the lazy `(.*?)` stops at the
first `);`. -/

/-- Match a literal pattern case-insensitively (the pattern is given in upper
case); returns the remaining input. -/
def matchLitCI : List Char → List Char → Option (List Char)
  | [], l => some l
  | _ :: _, [] => none
  | p :: ps, c :: cs => if c.toUpper = p then matchLitCI ps cs else none

/-- Match a literal pattern case-sensitively; returns the remaining input. -/
def matchLitEx : List Char → List Char → Option (List Char)
  | [], l => some l
  | _ :: _, [] => none
  | p :: ps, c :: cs => if c = p then matchLitEx ps cs else none

/-- `\s+`: at least one whitespace character, maximal munch. -/
def takeWs1 : List Char → Option (List Char)
  | [] => none
  | c :: cs => if isWsChar c then some (cs.dropWhile isWsChar) else none

/-- `(\w+)`: a nonempty word-character run, maximal munch; returns the
captured run and the rest. -/
def takeWord (l : List Char) : Option (List Char × List Char) :=
  match l.takeWhile isWordChar with
  | [] => none
  | w => some (w, l.dropWhile isWordChar)

/-- The lazy `(.*?)\);`: capture up to (excluding) the first `);`, failing on a
line terminator (which `.` cannot match). -/
def findBody : List Char → Option (List Char × List Char)
  | [] => none
  | ')' :: ';' :: rest => some ([], rest)
  | c :: rest =>
    if isLineTerm c then none
    else (findBody rest).map (fun br => (c :: br.1, br.2))

/-- The regex tail after `CREATE\s+` has been consumed: `TABLE`, then
whitespace, the name capture, optional whitespace, `(`, and the lazy body. -/
def tryTail2 (r2 : List Char) : Option (List Char × List Char × List Char) :=
  match matchLitCI "TABLE".data r2 with
  | none => none
  | some r3 =>
    match takeWs1 r3 with
    | none => none
    | some r4 =>
      match takeWord r4 with
      | none => none
      | some (w, r5) =>
        match r5.dropWhile isWsChar with
        | '(' :: r6 =>
          match findBody r6 with
          | none => none
          | some (body, rest) => some (w, body, rest)
        | _ => none

/-- The regex tail after `CREATE` has been consumed: `\s+` then the rest. -/
def tryTail1 (r1 : List Char) : Option (List Char × List Char × List Char) :=
  match takeWs1 r1 with
  | none => none
  | some r2 => tryTail2 r2

/-- Try the whole `CREATE TABLE` regex at the current position; returns
(raw captured name, raw captured body, rest of input). -/
def tryMatch (l : List Char) : Option (List Char × List Char × List Char) :=
  match matchLitCI "CREATE".data l with
  | none => none
  | some r1 => tryTail1 r1

/-- The `exec` loop: at each position try the regex; on success continue after
the match, on failure advance one character.  `fuel` bounds the number of
steps; `input.length + 1` is always enough. -/
def scanTables (fuel : Nat) (l : List Char) : List (List Char × List Char) :=
  match fuel with
  | 0 => []
  | fuel + 1 =>
    match tryMatch l with
    | some nbr => (nbr.1, nbr.2.1) :: scanTables fuel nbr.2.2
    | none =>
      match l with
      | [] => []
      | _ :: t => scanTables fuel t

/-! ## SchemaParser: column definitions -/

/-- The fixed `typeMap` object of `normalizeType`, as key/value pairs. -/
def typeMapPairs : List (String × String) :=
  [("SERIAL", "int8"), ("BIGSERIAL", "int8"), ("INTEGER", "int8"),
   ("INT", "int8"), ("BIGINT", "int8"), ("VARCHAR", "text"), ("CHAR", "text"),
   ("TEXT", "text"), ("BOOLEAN", "boolean"), ("BOOL", "boolean"),
   ("TIMESTAMP", "timestamp"), ("TIMESTAMPTZ", "timestamp"),
   ("DATE", "timestamp"), ("TIME", "timestamp"), ("DECIMAL", "numeric"),
   ("NUMERIC", "numeric"), ("REAL", "numeric"), ("DOUBLE", "numeric"),
   ("FLOAT", "numeric"), ("UUID", "uuid"), ("JSON", "json"), ("JSONB", "json")]

/-- The lookup `typeMap[baseType] || 'text'`. -/
def typeMapLookup (baseType : String) : String :=
  ((typeMapPairs.find? (fun p => p.1 = baseType)).map (fun p => p.2)).getD "text"

/-- `normalizeType`: strip from the first `(` (JS `type.split` at `(`, first
part), look up the fixed map, default `'text'`. -/
def normalizeType (type : String) : String :=
  typeMapLookup (String.mk (type.data.takeWhile (fun c => c ≠ '(')))

/-- `splitColumnDefinitions`: split on commas not nested in parentheses.
The paren counter is a plain integer (it may go negative, as in the source);
a comma at depth 0 with an all-whitespace accumulator falls through and is
appended to the accumulator, exactly as in the source loop. -/
def splitCDAux : List Char → List Char → Int → List String
  | [], current, _ => if trimS (String.mk current) ≠ "" then [trimS (String.mk current)] else []
  | ch :: rest, current, parenCount =>
    if ch = '(' then splitCDAux rest (current ++ [ch]) (parenCount + 1)
    else if ch = ')' then splitCDAux rest (current ++ [ch]) (parenCount - 1)
    else if ch = ',' && parenCount = 0 then
      if trimS (String.mk current) ≠ "" then
        trimS (String.mk current) :: splitCDAux rest [] parenCount
      else splitCDAux rest (current ++ [ch]) parenCount
    else splitCDAux rest (current ++ [ch]) parenCount

def splitColumnDefinitions (columnDefs : String) : List String :=
  splitCDAux columnDefs.data [] 0

/-- JS `str.split` on the `\s+` regex: segments between whitespace runs,
keeping empty leading/trailing segments.  State `true`: inside a whitespace
run whose preceding segment was already emitted. -/
def splitWsAux : Bool → List Char → List Char → List String
  | _, [], current => [String.mk current.reverse]
  | skipping, c :: rest, current =>
    if isWsChar c then
      if skipping then splitWsAux true rest current
      else String.mk current.reverse :: splitWsAux true rest []
    else splitWsAux false rest (c :: current)

def splitWs (s : String) : List String := splitWsAux false s.data []

/-- The regex `/REFERENCES\s+(\w+)\s*\(\s*(\w+)\s*\)/` tried at one position
(case sensitive: the source applies it to the upper-cased clause). -/
def refMatchAt (l : List Char) : Option (List Char × List Char) :=
  match matchLitEx "REFERENCES".data l with
  | none => none
  | some r1 =>
    match takeWs1 r1 with
    | none => none
    | some r2 =>
      match takeWord r2 with
      | none => none
      | some (w1, r3) =>
        match r3.dropWhile isWsChar with
        | '(' :: r4 =>
          match takeWord (r4.dropWhile isWsChar) with
          | none => none
          | some (w2, r5) =>
            match r5.dropWhile isWsChar with
            | ')' :: _ => some (w1, w2)
            | _ => none
        | _ => none

/-- Leftmost match of the `REFERENCES` regex. -/
def refScan : List Char → Option (List Char × List Char)
  | [] => none
  | l@(_ :: t) =>
    match refMatchAt l with
    | some r => some r
    | none => refScan t

/-- The regex `/DEFAULT\s+([^,\s]+)/` tried at one position (case sensitive:
applied to the upper-cased clause). -/
def defMatchAt (l : List Char) : Option (List Char) :=
  match matchLitEx "DEFAULT".data l with
  | none => none
  | some r1 =>
    match takeWs1 r1 with
    | none => none
    | some r2 =>
      match r2.takeWhile (fun c => !isWsChar c && c ≠ ',') with
      | [] => none
      | tok => some tok

/-- Leftmost match of the `DEFAULT` regex. -/
def defScan : List Char → Option (List Char)
  | [] => none
  | l@(_ :: t) =>
    match defMatchAt l with
    | some r => some r
    | none => defScan t

/-- `parseColumnDefinition`: one column clause to a `TableField` (or `null`
for table-level constraint clauses / too-short clauses). -/
def parseColumnDefinition (columnDef : String) : Option TableField :=
  let upperDef := toUpperStr columnDef
  if hasPrefixS upperDef "CONSTRAINT" || hasPrefixS upperDef "PRIMARY KEY" ||
      hasPrefixS upperDef "FOREIGN KEY" then none
  else
    match splitWs columnDef with
    | p0 :: p1 :: _ =>
      let name := toLowerStr p0
      let type := normalizeType (toUpperStr p1)
      let nullable := !containsSub upperDef "NOT NULL"
      let primaryKey := containsSub upperDef "PRIMARY KEY"
      -- `if (type === 'SERIAL' || type === 'BIGSERIAL')` — note: `type` here is
      -- already the normalized type, exactly as in the source.
      let pkNul : Bool × Bool :=
        if type = "SERIAL" || type = "BIGSERIAL" then (true, false)
        else (primaryKey, nullable)
      let foreignKey := (refScan upperDef.data).map
        (fun p => ForeignKeyRef.mk (toLowerStr (String.mk p.1)) (toLowerStr (String.mk p.2)))
      let defaultValue := (defScan upperDef.data).map String.mk
      some ⟨name, type, pkNul.2, pkNul.1, foreignKey, defaultValue⟩
    | _ => none

/-- `parseColumnDefinitions`: split the body, parse each trimmed clause, and
collect the explicit per-field relationships `(fromField, toTable, toField)`. -/
def parseColumnDefinitions (columnDefs : String) :
    List TableField × List (String × String × String) :=
  let fields := (splitColumnDefinitions columnDefs).filterMap
    (fun column => parseColumnDefinition (trimS column))
  (fields, fields.filterMap
    (fun f => f.foreignKey.map (fun fk => (f.name, fk.table, fk.column))))

/-! ## SchemaParser: implicit relationship inference

`detectImplicitRelationships` mutates the parsed tables (setting
`field.foreignKey`) and appends to `relationships`; here it is a pure function
returning the updated tables and relationships. -/

/-- JS `Map.prototype.set`: replace in place if the key exists (keeping the
original insertion position), else append. -/
def mapSet (m : List (String × α)) (k : String) (v : α) : List (String × α) :=
  if m.any (fun p => p.1 = k) then
    m.map (fun p => if p.1 = k then (k, v) else p)
  else m ++ [(k, v)]

/-- JS `Map.prototype.get` as an association-list lookup. -/
def mapGet (m : List (String × α)) (k : String) : Option α :=
  (m.find? (fun p => p.1 = k)).map (fun p => p.2)

/-- JS `str.slice(0, -1)`: drop the last character. -/
def sliceDropLast (s : String) : String := String.mk s.data.dropLast

/-- Build `tableMap` (table name to primary-key field name) and
`tableNameVariations`, both only for tables with a detected primary key. -/
def buildMaps (tables : List TableSchema) :
    List (String × String) × List (String × List String) :=
  tables.foldl
    (fun maps table =>
      match table.fields.find? (fun f => f.primaryKey) with
      | some pkField =>
        (mapSet maps.1 table.name pkField.name,
         mapSet maps.2 table.name
           [table.name, sliceDropLast table.name,
            table.name ++ "_id", sliceDropLast table.name ++ "_id"])
      | none => maps)
    ([], [])

/-- The inner `for (const [tableName, variations] of tableNameVariations)`
loop for one candidate field: find the first matching table, then either skip
(an equal-source relationship to that table already exists) or append the
inferred relationship and set the field's foreign key; `break` ends the loop
only when the matching table has a known primary key. -/
def findImplicitLoop (tableMap : List (String × String))
    (fromTableName : String) (field : TableField) (potentialTableName : String)
    (rels : List SchemaRelationship) :
    List (String × List String) → TableField × List SchemaRelationship
  | [] => (field, rels)
  | (tableName, variations) :: restVars =>
    if variations.any (fun variation =>
        variation = potentialTableName ||
        variation = potentialTableName ++ "s" ||
        variation = field.name) then
      match mapGet tableMap tableName with
      | some pkField =>
        if rels.any (fun rel =>
            rel.fromTable = fromTableName && rel.fromField = field.name &&
            rel.toTable = tableName) then
          (field, rels)
        else
          ({ field with foreignKey := some ⟨tableName, pkField⟩ },
           rels ++ [⟨fromTableName, field.name, tableName, pkField⟩])
      | none => findImplicitLoop tableMap fromTableName field potentialTableName rels restVars
    else findImplicitLoop tableMap fromTableName field potentialTableName rels restVars

/-- Process one field of one table during implicit-relationship detection. -/
def processField (tableMap : List (String × String))
    (tableNameVariations : List (String × List String)) (fromTableName : String)
    (field : TableField) (rels : List SchemaRelationship) :
    TableField × List SchemaRelationship :=
  if field.foreignKey.isSome then (field, rels)
  else if hasSuffixS field.name "_id" && !field.primaryKey then
    findImplicitLoop tableMap fromTableName field (removeFirstS field.name "_id")
      rels tableNameVariations
  else (field, rels)

/-- Process all fields of one table, threading the relationship list. -/
def processFields (tableMap : List (String × String))
    (tableNameVariations : List (String × List String)) (fromTableName : String)
    (fields : List TableField) (rels : List SchemaRelationship) :
    List TableField × List SchemaRelationship :=
  fields.foldl
    (fun acc field =>
      (acc.1 ++ [(processField tableMap tableNameVariations fromTableName field acc.2).1],
       (processField tableMap tableNameVariations fromTableName field acc.2).2))
    ([], rels)

/-- `detectImplicitRelationships`, as a pure function. -/
def detectImplicitRelationships (tables : List TableSchema)
    (relationships : List SchemaRelationship) :
    List TableSchema × List SchemaRelationship :=
  tables.foldl
    (fun acc table =>
      (acc.1 ++ [{ table with fields := (processFields (buildMaps tables).1
          (buildMaps tables).2 table.name table.fields acc.2).1 }],
       (processFields (buildMaps tables).1 (buildMaps tables).2
          table.name table.fields acc.2).2))
    ([], relationships)

/-! ## SchemaParser.parseSQL -/

/-- One raw regex match `(name, body)` to the parsed `TableSchema`. -/
def tableFromRaw (nb : List Char × List Char) : TableSchema :=
  { name := toLowerStr (String.mk nb.1),
    fields := (parseColumnDefinitions (String.mk nb.2)).1 }

/-- The explicit relationships contributed by one raw match. -/
def explicitRelsFromRaw (nb : List Char × List Char) : List SchemaRelationship :=
  ((parseColumnDefinitions (String.mk nb.2)).2).map
    (fun r => ⟨toLowerStr (String.mk nb.1), r.1, r.2.1, r.2.2⟩)

/-- `SchemaParser.parseSQL`. -/
def parseSQL (sql : String) : ParsedSchema :=
  let clean := cleanSQL sql
  let raw := scanTables (clean.length + 1) clean
  let tables := raw.map tableFromRaw
  let relationships := raw.flatMap explicitRelsFromRaw
  let tr := detectImplicitRelationships tables relationships
  { tables := tr.1, relationships := tr.2 }

/-! ## SQLSyntaxMapper (services/database/sqlSyntaxMapper.ts) -/

/-- `autoIncrement` entry of a syntax config (`syntax` is called
`syntaxStr` here). -/
structure AutoIncrementCfg where
  integerType : String
  syntaxStr : String

/-- `dataTypes` entry of a syntax config; `varchar` is a function of the
optional length (default 255). -/
structure DataTypesCfg where
  serial : String
  text : String
  integer : String
  boolean : String
  timestamp : String
  decimal : String
  varchar : Option Int → String

/-- `constraints` entry of a syntax config. -/
structure ConstraintsCfg where
  primaryKey : String
  notNull : String
  unique : String
  foreignKey : String → String → String

/-- `functions` entry of a syntax config. -/
structure FunctionsCfg where
  now : String
  uuid : String

/-- `interface DatabaseSyntaxConfig`. -/
structure DatabaseSyntaxConfig where
  autoIncrement : AutoIncrementCfg
  dataTypes : DataTypesCfg
  constraints : ConstraintsCfg
  functions : FunctionsCfg

/-- Render an Int the way a JS template literal does (used for varchar
lengths). -/
def intToStr (n : Int) : String :=
  if n < 0 then "-" ++ (-n).toNat.repr else n.toNat.repr

def postgresqlConfig : DatabaseSyntaxConfig :=
  { autoIncrement := ⟨"INTEGER", "SERIAL PRIMARY KEY"⟩,
    dataTypes :=
      { serial := "SERIAL", text := "TEXT", integer := "INTEGER",
        boolean := "BOOLEAN", timestamp := "TIMESTAMP", decimal := "DECIMAL",
        varchar := fun len => "VARCHAR(" ++ intToStr (len.getD 255) ++ ")" },
    constraints :=
      { primaryKey := "PRIMARY KEY", notNull := "NOT NULL", unique := "UNIQUE",
        foreignKey := fun t c => "REFERENCES " ++ t ++ "(" ++ c ++ ")" },
    functions := ⟨"NOW()", "gen_random_uuid()"⟩ }

def mysqlConfig : DatabaseSyntaxConfig :=
  { autoIncrement := ⟨"INT", "INT AUTO_INCREMENT PRIMARY KEY"⟩,
    dataTypes :=
      { serial := "INT AUTO_INCREMENT", text := "TEXT", integer := "INT",
        boolean := "BOOLEAN", timestamp := "TIMESTAMP", decimal := "DECIMAL",
        varchar := fun len => "VARCHAR(" ++ intToStr (len.getD 255) ++ ")" },
    constraints :=
      { primaryKey := "PRIMARY KEY", notNull := "NOT NULL", unique := "UNIQUE",
        foreignKey := fun t c => "REFERENCES " ++ t ++ "(" ++ c ++ ")" },
    functions := ⟨"NOW()", "UUID()"⟩ }

def sqliteConfig : DatabaseSyntaxConfig :=
  { autoIncrement := ⟨"INTEGER", "INTEGER PRIMARY KEY AUTOINCREMENT"⟩,
    dataTypes :=
      { serial := "INTEGER PRIMARY KEY AUTOINCREMENT", text := "TEXT",
        integer := "INTEGER", boolean := "INTEGER", timestamp := "TEXT",
        decimal := "REAL", varchar := fun _ => "TEXT" },
    constraints :=
      { primaryKey := "PRIMARY KEY", notNull := "NOT NULL", unique := "UNIQUE",
        foreignKey := fun t c => "REFERENCES " ++ t ++ "(" ++ c ++ ")" },
    functions := ⟨"datetime('now')", "lower(hex(randomblob(16)))"⟩ }

def supabaseConfig : DatabaseSyntaxConfig :=
  { autoIncrement := ⟨"INTEGER", "SERIAL PRIMARY KEY"⟩,
    dataTypes :=
      { serial := "SERIAL", text := "TEXT", integer := "INTEGER",
        boolean := "BOOLEAN", timestamp := "TIMESTAMP WITH TIME ZONE",
        decimal := "DECIMAL",
        varchar := fun len => "VARCHAR(" ++ intToStr (len.getD 255) ++ ")" },
    constraints :=
      { primaryKey := "PRIMARY KEY", notNull := "NOT NULL", unique := "UNIQUE",
        foreignKey := fun t c => "REFERENCES " ++ t ++ "(" ++ c ++ ")" },
    functions := ⟨"NOW()", "gen_random_uuid()"⟩ }

def planetscaleConfig : DatabaseSyntaxConfig :=
  { autoIncrement := ⟨"INT", "INT AUTO_INCREMENT PRIMARY KEY"⟩,
    dataTypes :=
      { serial := "INT AUTO_INCREMENT", text := "TEXT", integer := "INT",
        boolean := "BOOLEAN", timestamp := "TIMESTAMP", decimal := "DECIMAL",
        varchar := fun len => "VARCHAR(" ++ intToStr (len.getD 255) ++ ")" },
    constraints :=
      { primaryKey := "PRIMARY KEY", notNull := "NOT NULL", unique := "UNIQUE",
        foreignKey := fun t c => "REFERENCES " ++ t ++ "(" ++ c ++ ")" },
    functions := ⟨"NOW()", "UUID()"⟩ }

def postgresLocalConfig : DatabaseSyntaxConfig :=
  { autoIncrement := ⟨"INTEGER", "SERIAL PRIMARY KEY"⟩,
    dataTypes :=
      { serial := "SERIAL", text := "TEXT", integer := "INTEGER",
        boolean := "BOOLEAN", timestamp := "TIMESTAMP", decimal := "DECIMAL",
        varchar := fun len => "VARCHAR(" ++ intToStr (len.getD 255) ++ ")" },
    constraints :=
      { primaryKey := "PRIMARY KEY", notNull := "NOT NULL", unique := "UNIQUE",
        foreignKey := fun t c => "REFERENCES " ++ t ++ "(" ++ c ++ ")" },
    functions := ⟨"NOW()", "gen_random_uuid()"⟩ }

def mysqlLocalConfig : DatabaseSyntaxConfig :=
  { autoIncrement := ⟨"INT", "INT AUTO_INCREMENT PRIMARY KEY"⟩,
    dataTypes :=
      { serial := "INT AUTO_INCREMENT", text := "TEXT", integer := "INT",
        boolean := "BOOLEAN", timestamp := "TIMESTAMP", decimal := "DECIMAL",
        varchar := fun len => "VARCHAR(" ++ intToStr (len.getD 255) ++ ")" },
    constraints :=
      { primaryKey := "PRIMARY KEY", notNull := "NOT NULL", unique := "UNIQUE",
        foreignKey := fun t c => "REFERENCES " ++ t ++ "(" ++ c ++ ")" },
    functions := ⟨"NOW()", "UUID()"⟩ }

/-- The `DATABASE_SYNTAX` record, keyed by provider string. -/
def DATABASE_SYNTAX (key : String) : Option DatabaseSyntaxConfig :=
  if key = "postgresql" then some postgresqlConfig
  else if key = "mysql" then some mysqlConfig
  else if key = "sqlite" then some sqliteConfig
  else if key = "supabase" then some supabaseConfig
  else if key = "planetscale" then some planetscaleConfig
  else if key = "postgres-local" then some postgresLocalConfig
  else if key = "mysql-local" then some mysqlLocalConfig
  else none

/-- `SQLSyntaxMapper.getSyntaxConfig`: unknown providers fall back to
postgresql (the source logs a warning and returns the postgresql entry). -/
def getSyntaxConfig (provider : String) : DatabaseSyntaxConfig :=
  (DATABASE_SYNTAX provider).getD postgresqlConfig

/-- The regex `varchar\((\d+)\)` searched in the lowered type: leftmost
match's digits. -/
def varcharLenScan : List Char → Option (List Char)
  | [] => none
  | l@(_ :: t) =>
    (match matchLitEx "varchar(".data l with
     | none => none
     | some r1 =>
       match r1.takeWhile Char.isDigit with
       | [] => none
       | ds => match r1.dropWhile Char.isDigit with
               | ')' :: _ => some ds
               | _ => none) |>.orElse (fun _ => varcharLenScan t)

/-- Digits to a number (JS `parseInt` on a digit-only capture). -/
def digitsToNat : List Char → Nat
  | ds => ds.foldl (fun acc c => acc * 10 + (c.toNat - '0'.toNat)) 0

/-- `SQLSyntaxMapper.mapDataType`. -/
def mapDataType (genericType : String) (provider : String)
    (optionsLength : Option Int := none) : String :=
  let config := getSyntaxConfig provider
  let lowerType := toLowerStr genericType
  if lowerType = "serial" || (lowerType = "integer" && optionsLength = some (-1)) then
    config.dataTypes.serial
  else if hasPrefixS lowerType "varchar" then
    match varcharLenScan lowerType.data with
    | some ds => config.dataTypes.varchar (some (Int.ofNat (digitsToNat ds)))
    | none => config.dataTypes.varchar optionsLength
  else if lowerType = "text" then config.dataTypes.text
  else if lowerType = "string" then config.dataTypes.text
  else if lowerType = "int" then config.dataTypes.integer
  else if lowerType = "int8" then config.dataTypes.integer
  else if lowerType = "integer" then config.dataTypes.integer
  else if lowerType = "bool" then config.dataTypes.boolean
  else if lowerType = "boolean" then config.dataTypes.boolean
  else if lowerType = "timestamp" then config.dataTypes.timestamp
  else if lowerType = "datetime" then config.dataTypes.timestamp
  else if lowerType = "decimal" then config.dataTypes.decimal
  else if lowerType = "numeric" then config.dataTypes.decimal
  else toUpperStr genericType

/-! ## DiagramService (services/diagramService.ts)

Only the pure data path is modelled: `updateFromSchema`'s conversion of a
parsed schema into `DiagramData`, and `exportSchemaAsSQL`.  The layout
metadata (`position`, computed with floating-point `Math.sqrt`/`Math.ceil`)
is omitted: it is never read by the SQL exporter. -/

/-- One field of `interface DiagramTable`. -/
structure DiagramField where
  name : String
  type : String
  isPrimaryKey : Bool
  isForeignKey : Bool
  nullable : Bool
deriving DecidableEq, Repr

/-- `interface DiagramTable` (minus layout `position`). -/
structure DiagramTable where
  id : String
  name : String
  fields : List DiagramField
  incoming : Nat
  outgoing : Nat
deriving DecidableEq, Repr

/-- `interface DiagramRelationship`. -/
structure DiagramRelationship where
  id : String
  fromTable : String
  fromField : String
  toTable : String
  toField : String
deriving DecidableEq, Repr

/-- `interface DiagramData`. -/
structure DiagramData where
  tables : List DiagramTable
  relationships : List DiagramRelationship
deriving DecidableEq, Repr

/-- `DiagramService.updateFromSchema`: convert parsed tables/relationships to
diagram format (replacing any previous diagram data). -/
def updateFromSchema (tables : List TableSchema)
    (relationships : List SchemaRelationship) : DiagramData :=
  { tables := tables.map (fun table =>
      { id := table.name,
        name := table.name,
        fields := table.fields.map (fun field =>
          { name := field.name, type := field.type,
            isPrimaryKey := field.primaryKey,
            isForeignKey := field.foreignKey.isSome,
            nullable := field.nullable }),
        incoming := (relationships.filter (fun rel => rel.toTable = table.name)).length,
        outgoing := (relationships.filter (fun rel => rel.fromTable = table.name)).length }),
    relationships := relationships.map (fun rel =>
      { id := rel.fromTable ++ "_" ++ rel.fromField ++ "_" ++ rel.toTable ++ "_" ++ rel.toField,
        fromTable := rel.fromTable, fromField := rel.fromField,
        toTable := rel.toTable, toField := rel.toField }) }

/-- The part of one rendered column definition after the column name: the
auto-increment/type/PRIMARY KEY phrase, the optional NOT NULL, and the
optional inline REFERENCES clause (looked up in the diagram's relationship
list exactly as the source does). -/
def exportFieldCore (diagramData : DiagramData) (provider : String)
    (tableName : String) (field : DiagramField) : String :=
  let syntaxConfig := getSyntaxConfig provider
  let fieldDefinition :=
    if field.isPrimaryKey then
      if toLowerStr field.type = "int8" || toLowerStr field.type = "integer" ||
          toLowerStr field.type = "serial" then
        " " ++ syntaxConfig.autoIncrement.syntaxStr
      else
        " " ++ mapDataType field.type provider ++ " " ++
          syntaxConfig.constraints.primaryKey
    else
      " " ++ mapDataType field.type provider
  let fieldDefinition :=
    if !field.nullable && !field.isPrimaryKey then
      fieldDefinition ++ " " ++ syntaxConfig.constraints.notNull
    else fieldDefinition
  match diagramData.relationships.find? (fun rel =>
      rel.fromTable = tableName && rel.fromField = field.name) with
  | some relationship =>
    fieldDefinition ++ " " ++
      syntaxConfig.constraints.foreignKey relationship.toTable relationship.toField
  | none => fieldDefinition

/-- One rendered column definition (`    name` followed by the core). -/
def exportFieldDef (diagramData : DiagramData) (provider : String)
    (tableName : String) (field : DiagramField) : String :=
  "    " ++ field.name ++ exportFieldCore diagramData provider tableName field

/-- One rendered `CREATE TABLE IF NOT EXISTS` statement. -/
def exportTableStatement (diagramData : DiagramData) (provider : String)
    (table : DiagramTable) : String :=
  "CREATE TABLE IF NOT EXISTS " ++ table.name ++ " (\n" ++
    joinSep ",\n" (table.fields.map (exportFieldDef diagramData provider table.name)) ++
    "\n);"

/-- `DiagramService.exportSchemaAsSQL`. -/
def exportSchemaAsSQL (diagramData : DiagramData) (provider : String := "postgresql") :
    String :=
  if diagramData.tables.length = 0 then ""
  else joinSep "\n\n" (diagramData.tables.map (exportTableStatement diagramData provider))

/-! ## Auxiliary definitions used by the verification statements -/

/-- JS `str.split('\n')`. -/
def splitAtNewlines : List Char → List (List Char)
  | [] => [[]]
  | c :: rest =>
    if c = '\n' then [] :: splitAtNewlines rest
    else
      match splitAtNewlines rest with
      | [] => [[c]]
      | l :: ls => (c :: l) :: ls

def lineList (s : String) : List String := (splitAtNewlines s.data).map String.mk

/-- Number of occurrences of a relationship in a relationship list. -/
def countRel : List SchemaRelationship → SchemaRelationship → Nat
  | [], _ => 0
  | x :: xs, r => (if x = r then 1 else 0) + countRel xs r

/-- 1 when a field of a table named `tname` realizes relationship `r` through
its `foreignKey` attribute, 0 otherwise. -/
def fkIndicator (tname : String) (f : TableField) (r : SchemaRelationship) : Nat :=
  if tname = r.fromTable ∧ f.name = r.fromField ∧
      f.foreignKey = some ⟨r.toTable, r.toField⟩ then 1 else 0

/-- Number of fields in a field list realizing relationship `r`. -/
def countFieldFK (tname : String) : List TableField → SchemaRelationship → Nat
  | [], _ => 0
  | f :: fs, r => fkIndicator tname f r + countFieldFK tname fs r

/-- Number of fields across a table list realizing relationship `r`. -/
def countTablesFK : List TableSchema → SchemaRelationship → Nat
  | [], _ => 0
  | t :: ts, r => countFieldFK t.name t.fields r + countTablesFK ts r

/-- Following the spec's words for the reference split ("split into
column/constraint clauses on commas that are not nested inside parentheses; a
running paren-depth counter walks the body character by character; a comma only
splits when depth is 0"): the depth-0 comma-separated segments of a body, with
empty segments kept. -/
def specSegmentsAux : List Char → List Char → Int → List String
  | [], current, _ => [String.mk current]
  | ch :: rest, current, depth =>
    if ch = '(' then specSegmentsAux rest (current ++ [ch]) (depth + 1)
    else if ch = ')' then specSegmentsAux rest (current ++ [ch]) (depth - 1)
    else if ch = ',' && depth = 0 then
      String.mk current :: specSegmentsAux rest [] depth
    else specSegmentsAux rest (current ++ [ch]) depth

/-- The top-level comma-separated segments of a CREATE TABLE body. -/
def specSegments (body : String) : List String := specSegmentsAux body.data [] 0

/-- Following the spec's words for the DEFAULT capture ("first non-whitespace,
non-comma token after DEFAULT", keyword detected case-insensitively): the
pattern tried at one position of the original, un-uppercased clause. -/
def specDefaultMatchAt (l : List Char) : Option (List Char) :=
  match matchLitCI "DEFAULT".data l with
  | none => none
  | some r1 =>
    match takeWs1 r1 with
    | none => none
    | some r2 =>
      match r2.takeWhile (fun c => !isWsChar c && c ≠ ',') with
      | [] => none
      | tok => some tok

/-- Leftmost case-insensitive DEFAULT-token match in the original clause: the
verbatim token as the spec describes it. -/
def specDefaultScan : List Char → Option (List Char)
  | [] => none
  | l@(_ :: t) =>
    match specDefaultMatchAt l with
    | some r => some r
    | none => specDefaultScan t

def specDefaultToken (clause : String) : Option String :=
  (specDefaultScan clause.data).map String.mk

/-- The end-to-end scenario input of the spec. -/
def endToEndInput : String :=
  "CREATE TABLE users (id SERIAL PRIMARY KEY, email TEXT NOT NULL); CREATE TABLE posts (id SERIAL PRIMARY KEY, user_id INTEGER, title TEXT);"

/-- A minimal one-table diagram schema with an explicit-FK-free, canonical
`int8` primary key, used to exhibit the round-trip failure. -/
def roundTripSchema : DiagramData :=
  { tables := [{ id := "users", name := "users",
                 fields := [{ name := "id", type := "int8", isPrimaryKey := true,
                              isForeignKey := false, nullable := false }],
                 incoming := 0, outgoing := 0 }],
    relationships := [] }

/-- One full parse-then-regenerate pass over generated SQL, as performed by
`importFromSQL` followed by `exportSchemaAsSQL`. -/
def reparseExport (sql : String) (provider : String) : String :=
  let parsed := parseSQL sql
  exportSchemaAsSQL (updateFromSchema parsed.tables parsed.relationships) provider

/-! ## Round-trip analysis: the cleaned form of generated SQL

`parseSQL` first strips comments and collapses whitespace runs to single
spaces.  The following definitions give the collapsed form of the generated
script directly, together with decidable well-formedness predicates on
diagram schemas, chunk predicates driving the collapse computation, and
safety predicates expressing that the CREATE TABLE regex never matches. -/

/-- The type/constraint part of one generated column, separated out of the
`let` chain of `exportFieldCore`: the auto-increment or type/PRIMARY KEY
phrase with its leading space. -/
def coreBase (provider : String) (f : DiagramField) : String :=
  if f.isPrimaryKey then
    if toLowerStr f.type = "int8" || toLowerStr f.type = "integer" ||
        toLowerStr f.type = "serial" then
      " " ++ (getSyntaxConfig provider).autoIncrement.syntaxStr
    else
      " " ++ mapDataType f.type provider ++ " " ++
        (getSyntaxConfig provider).constraints.primaryKey
  else " " ++ mapDataType f.type provider

/-- `coreBase` with the NOT NULL constraint appended when the field is
non-nullable and not the primary key. -/
def coreNN (provider : String) (f : DiagramField) : String :=
  if !f.nullable && !f.isPrimaryKey then
    coreBase provider f ++ " " ++ (getSyntaxConfig provider).constraints.notNull
  else coreBase provider f

/-- The inline REFERENCES clause for a matched relationship. -/
def refClause (provider : String) (r : DiagramRelationship) : String :=
  (getSyntaxConfig provider).constraints.foreignKey r.toTable r.toField

/-- The whitespace-collapsed form of one generated column line: the column
name followed by the core (the four-space indent collapses into the single
separator space before the name). -/
def cleanFieldLine (diagramData : DiagramData) (provider : String)
    (tableName : String) (field : DiagramField) : String :=
  field.name ++ exportFieldCore diagramData provider tableName field

/-- The whitespace-collapsed form of one generated CREATE TABLE statement. -/
def cleanStatement (diagramData : DiagramData) (provider : String)
    (table : DiagramTable) : String :=
  "CREATE TABLE IF NOT EXISTS " ++ table.name ++ " ( " ++
    joinSep ", " (table.fields.map (cleanFieldLine diagramData provider table.name)) ++
    " );"

/-- The whitespace-collapsed form of the whole generated script. -/
def cleanRender (diagramData : DiagramData) (provider : String) : String :=
  joinSep " " (diagramData.tables.map (cleanStatement diagramData provider))

/-- A chunk that passes through the whitespace collapse unchanged: no dash
character (so the comment strip ignores it too), and every whitespace
character in it is a single space followed inside the chunk by a non-space
(a trailing single space is allowed). -/
def chunkOkB : List Char → Bool
  | [] => true
  | [c] => decide (¬ c = '-') && (!isWsChar c || decide (c = ' '))
  | c :: d :: rest =>
    decide (¬ c = '-') && (!isWsChar c || (decide (c = ' ') && !isWsChar d)) &&
      chunkOkB (d :: rest)

/-- Whether a chunk does not end in a whitespace character (vacuously true
for the empty chunk). -/
def endsNonWsB : List Char → Bool
  | [] => true
  | [c] => !isWsChar c
  | _ :: d :: rest => endsNonWsB (d :: rest)

/-- Whether a list is empty or starts with a non-whitespace character. -/
def headNonWsB : List Char → Bool
  | [] => true
  | c :: _ => !isWsChar c

/-- Whether a list is empty or starts with a non-word character. -/
def headNonWordB : List Char → Bool
  | [] => true
  | c :: _ => !isWordChar c

/-- Every position of the list locally refutes the `CREATE` literal within
at most four characters, so `tryMatch` fails there whatever text follows
the list. -/
def selfBlockB : List Char → Bool
  | [] => true
  | [c] => !(decide (c.toUpper = 'C'))
  | [c, d] =>
    (!(decide (c.toUpper = 'C')) || !(decide (d.toUpper = 'R'))) && selfBlockB [d]
  | [c, d, e] =>
    (!(decide (c.toUpper = 'C')) || !(decide (d.toUpper = 'R'))) && selfBlockB [d, e]
  | c :: d :: e :: f :: rest =>
    (!(decide (c.toUpper = 'C')) || !(decide (d.toUpper = 'R')) ||
        !(decide (e.toUpper = 'E')) || !(decide (f.toUpper = 'A'))) &&
      selfBlockB (d :: e :: f :: rest)

/-- The facts needed of the phrase after a column name: every position
locally fails the regex, the chunk collapses to itself, it ends in a
non-space, and it is a space followed by two characters that refute the
`TABLE` literal. -/
def fd1OkB : List Char → Bool
  | l@(c :: a :: b :: _) =>
    selfBlockB l && chunkOkB l && endsNonWsB l && decide (c = ' ') &&
      !isWsChar a && !(decide (a.toUpper = 'T') && decide (b.toUpper = 'A'))
  | _ => false

/-- `tryMatch` fails at every suffix of `l`. -/
def SafeL (l : List Char) : Prop := ∀ i : Nat, tryMatch (l.drop i) = none

/-- `tryMatch` fails at every position inside `A` when exactly `B` follows. -/
def SafeChunk (A B : List Char) : Prop :=
  ∀ i : Nat, i < A.length → tryMatch (A.drop i ++ B) = none

/-- After a word run ending right before `rest`, the regex cannot proceed:
the `\s+` test fails, or it succeeds and the following text refutes the
`TABLE` literal. -/
def RestBlocks (rest : List Char) : Prop :=
  takeWs1 rest = none ∨
    ∃ r2, takeWs1 rest = some r2 ∧ matchLitCI "TABLE".data r2 = none

/-- A usable identifier: nonempty and made of word characters only. -/
def wordOkB (s : String) : Bool := !s.data.isEmpty && s.data.all isWordChar

/-- The canonical logical types covered by the round-trip analysis. -/
def typeOkB (t : String) : Bool :=
  t = "int8" || t = "text" || t = "boolean" || t = "timestamp" ||
    t = "numeric" || t = "uuid" || t = "json"

/-- One diagram field: identifier name and canonical type. -/
def fieldOkB (f : DiagramField) : Bool := wordOkB f.name && typeOkB f.type

/-- One diagram table: identifier name, at least one column, well-formed
columns. -/
def tableOkB (t : DiagramTable) : Bool :=
  wordOkB t.name && !t.fields.isEmpty && t.fields.all fieldOkB

/-- One diagram relationship: identifier target table and column. -/
def relOkB (r : DiagramRelationship) : Bool :=
  wordOkB r.toTable && wordOkB r.toField

/-- A well-formed diagram schema for the round-trip analysis. -/
def ddOkB (dd : DiagramData) : Bool :=
  dd.tables.all tableOkB && dd.relationships.all relOkB

/-! ## Claim theorems -/

/-- Claim C10: when the schema contains zero tables, `exportSchemaAsSQL`
returns the empty string for every dialect identifier — not a separator, a
header, or any CREATE TABLE text. -/
theorem exportSchemaAsSQL_empty_schema (relationships : List DiagramRelationship)
    (provider : String) :
    exportSchemaAsSQL { tables := [], relationships := relationships } provider = "" :=
  rfl

/-- Claim C2: the end-to-end scenario input parses to exactly 2 tables and
exactly the single inferred relationship posts.user_id to users.id, and
regenerating for the sqlite dialect yields the full column line
`    user_id INTEGER REFERENCES users(id)` (delimited by the preceding newline
and the following column-separator comma, hence with no NOT NULL). -/
theorem parseSQL_end_to_end_scenario :
    (parseSQL endToEndInput).tables.length = 2 ∧
    (parseSQL endToEndInput).relationships =
      [{ fromTable := "posts", fromField := "user_id", toTable := "users", toField := "id" }] ∧
    containsSub (reparseExport endToEndInput "sqlite")
      "\n    user_id INTEGER REFERENCES users(id),\n" = true := by
  decide

/-- Claim C3 (code bug): on the failing input `CREATE TABLE t (id SERIAL);`
the parser returns `primaryKey = false, nullable = true` for the SERIAL
column: `parseColumnDefinition` normalizes the raw type BEFORE comparing it
against `'SERIAL'`/`'BIGSERIAL'`, so the auto-increment branch (whose comment
announces the SERIAL primary-key idiom) can never fire. -/
theorem parseSQL_serial_without_pk_text :
    parseSQL "CREATE TABLE t (id SERIAL);" =
      { tables := [{ name := "t",
                     fields := [{ name := "id", type := "int8", nullable := true,
                                  primaryKey := false, foreignKey := none,
                                  defaultValue := none }] }],
        relationships := [] } := by
  decide

/-- Claim C1 (counterexample): round-trip stability fails.  For the in-scope
schema `roundTripSchema` (explicit-relationships-only — it has none — and the
canonical logical type `int8`) and the postgres-like dialect, regenerating the
reparsed output gives the empty string, not the original SQL: the parser's
regex does not accept the generator's `CREATE TABLE IF NOT EXISTS` header, so
parsing the generator's own output loses every table. -/
theorem roundTrip_fails_cex :
    reparseExport (exportSchemaAsSQL roundTripSchema "postgresql") "postgresql" = "" ∧
    exportSchemaAsSQL roundTripSchema "postgresql" ≠ "" ∧
    reparseExport (exportSchemaAsSQL roundTripSchema "postgresql") "postgresql" ≠
      exportSchemaAsSQL roundTripSchema "postgresql" := by
  decide

/-- Claim C4 (counterexample): with duplicated column names the
relationship/foreignKey correspondence is not one-to-one: the parsed schema
contains the relationship b.a to u.y, but exactly two fields (not one) named
`a` in tables named `b` realize it through their `foreignKey`, and the
relationship itself occurs twice. -/
theorem relationship_exactly_one_field_cex :
    (parseSQL "CREATE TABLE b (a INT REFERENCES u(y), a INT REFERENCES u(y));").relationships.contains
      { fromTable := "b", fromField := "a", toTable := "u", toField := "y" } = true ∧
    countTablesFK
      (parseSQL "CREATE TABLE b (a INT REFERENCES u(y), a INT REFERENCES u(y));").tables
      { fromTable := "b", fromField := "a", toTable := "u", toField := "y" } = 2 ∧
    countRel
      (parseSQL "CREATE TABLE b (a INT REFERENCES u(y), a INT REFERENCES u(y));").relationships
      { fromTable := "b", fromField := "a", toTable := "u", toField := "y" } = 2 := by
  decide

/-- Claim C5 (counterexample): a field parsed from a clause with explicit
`PRIMARY KEY` text but no `NOT NULL` text comes back with `primaryKey = true`
and `nullable = true`: primary-key status does NOT force non-nullability in
`parseColumnDefinition`. -/
theorem primaryKey_not_forcing_nullable_cex :
    parseSQL "CREATE TABLE t (id INTEGER PRIMARY KEY);" =
      { tables := [{ name := "t",
                     fields := [{ name := "id", type := "int8", nullable := true,
                                  primaryKey := true, foreignKey := none,
                                  defaultValue := none }] }],
        relationships := [] } := by
  decide

/-- Claim C7 (counterexample): for the body `","` there are no (nonblank)
top-level comma-separated column/constraint definitions, yet
`splitColumnDefinitions` returns one clause (the comma itself, appended to the
all-whitespace accumulator by the fall-through branch): the clause count does
not in general equal the definition count. -/
theorem splitColumnDefinitions_blank_segment_cex :
    splitColumnDefinitions "," = [","] ∧
    ((specSegments ",").filter (fun s => !(trimS s == ""))).length = 0 := by
  decide

/-- Claim C8 (counterexample): for the clause `a TEXT DEFAULT 'x'` the token
following DEFAULT in the input is `'x'`, but the parsed `defaultValue` is
`'X'`: the source matches the DEFAULT regex against the upper-cased clause, so
the captured token is not verbatim. -/
theorem defaultValue_not_verbatim_cex :
    parseColumnDefinition "a TEXT DEFAULT 'x'" =
      some { name := "a", type := "text", nullable := true, primaryKey := false,
             foreignKey := none, defaultValue := some "'X'" } ∧
    specDefaultToken "a TEXT DEFAULT 'x'" = some "'x'" ∧
    ("'X'" : String) ≠ "'x'" := by
  decide

/-- Claim C9: for every dialect identifier that is not a key of the syntax
table, `getSyntaxConfig` returns the postgresql configuration, and both
`mapDataType` and SQL generation behave exactly as for the postgres-like
dialect; no error is raised (the functions are total). -/
theorem getSyntaxConfig_unknown_fallback (provider : String)
    (h : DATABASE_SYNTAX provider = none) :
    getSyntaxConfig provider = postgresqlConfig ∧
    (∀ genericType optLen, mapDataType genericType provider optLen =
      mapDataType genericType "postgresql" optLen) ∧
    (∀ diagramData, exportSchemaAsSQL diagramData provider =
      exportSchemaAsSQL diagramData "postgresql") := by
  have hcfg : getSyntaxConfig provider = postgresqlConfig := by
    simp [getSyntaxConfig, h]
  have hpg : getSyntaxConfig "postgresql" = postgresqlConfig := rfl
  have hmap : ∀ genericType optLen, mapDataType genericType provider optLen =
      mapDataType genericType "postgresql" optLen := by
    intro g o
    simp only [mapDataType, hcfg, hpg]
  refine ⟨hcfg, hmap, ?_⟩
  intro dd
  have hcore : ∀ tn f, exportFieldCore dd provider tn f = exportFieldCore dd "postgresql" tn f := by
    intro tn f
    simp only [exportFieldCore, hcfg, hpg, hmap]
  have hfd : exportFieldDef dd provider = exportFieldDef dd "postgresql" := by
    funext tn f
    simp only [exportFieldDef, hcore]
  have hts : exportTableStatement dd provider = exportTableStatement dd "postgresql" := by
    funext t
    simp only [exportTableStatement, hfd]
  simp only [exportSchemaAsSQL, hts]

/-- Witness for C9 at the unknown identifier `"oracle"`. -/
theorem getSyntaxConfig_unknown_fallback_witness :
    getSyntaxConfig "oracle" = postgresqlConfig :=
  (getSyntaxConfig_unknown_fallback "oracle" rfl).1

/-- Helper for C7: the clause splitter agrees with the trimmed top-level
segments whenever every top-level segment is nonblank. -/
theorem splitCDAux_eq_of_nonblank :
    ∀ (cs : List Char) (current : List Char) (depth : Int),
      (∀ seg ∈ specSegmentsAux cs current depth, trimS seg ≠ "") →
      splitCDAux cs current depth = (specSegmentsAux cs current depth).map trimS := by
  intro cs
  induction cs with
  | nil =>
    intro current depth h
    have hc : trimS (String.mk current) ≠ "" := h _ (by simp [specSegmentsAux])
    simp [splitCDAux, specSegmentsAux, hc]
  | cons ch rest ih =>
    intro current depth h
    by_cases h1 : ch = '('
    · simp only [splitCDAux, specSegmentsAux, h1, reduceIte]
      exact ih _ _ (by
        intro seg hs
        exact h seg (by simpa [specSegmentsAux, h1] using hs))
    · by_cases h2 : ch = ')'
      · simp [splitCDAux, specSegmentsAux, h1, h2]
        exact ih _ _ (by
          intro seg hs
          exact h seg (by simpa [specSegmentsAux, h1, h2] using hs))
      · by_cases h3 : ch = ','
        · by_cases h4 : depth = 0
          · have hcur : trimS (String.mk current) ≠ "" := by
              apply h
              simp [specSegmentsAux, h1, h2, h3, h4]
            simp [splitCDAux, specSegmentsAux, h1, h2, h3, h4, hcur]
            exact ih _ _ (by
              intro seg hs
              apply h seg
              simp [specSegmentsAux, h1, h2, h3, h4]
              right
              exact hs)
          · simp [splitCDAux, specSegmentsAux, h1, h2, h3, h4]
            exact ih _ _ (by
              intro seg hs
              exact h seg (by simpa [specSegmentsAux, h1, h2, h3, h4] using hs))
        · simp [splitCDAux, specSegmentsAux, h1, h2, h3]
          exact ih _ _ (by
            intro seg hs
            exact h seg (by simpa [specSegmentsAux, h1, h2, h3] using hs))

/-- Claim C7 (amended): a comma nested inside parentheses never splits, and
whenever no top-level (depth-0) comma-separated segment of the body is blank,
the clauses returned by `splitColumnDefinitions` are exactly the trimmed
top-level segments (so their count equals the definition count).  The proviso
is forced by the counterexample body `","`, where a blank segment makes the
source append the comma to the accumulator instead of splitting. -/
theorem splitColumnDefinitions_eq_segments (body : String)
    (h : ∀ seg ∈ specSegments body, trimS seg ≠ "") :
    splitColumnDefinitions body = (specSegments body).map trimS :=
  splitCDAux_eq_of_nonblank body.data [] 0 h

/-- Witness for C7 on the spec's own example body: it is a single clause. -/
theorem splitColumnDefinitions_eq_segments_witness :
    splitColumnDefinitions "price NUMERIC(10,2) NOT NULL" =
      (specSegments "price NUMERIC(10,2) NOT NULL").map trimS ∧
    (specSegments "price NUMERIC(10,2) NOT NULL").map trimS =
      ["price NUMERIC(10,2) NOT NULL"] :=
  ⟨splitColumnDefinitions_eq_segments _ (by decide), by decide⟩

/-! ## ASCII case-conversion facts used to relate scans on the upper-cased
clause with case-insensitive scans on the original clause -/

theorem toUpper_eq_self_of_not_lower (c : Char) (h : ¬(97 ≤ c.toNat ∧ c.toNat ≤ 122)) :
    c.toUpper = c := by
  unfold Char.toUpper
  rw [if_neg]
  intro hcon
  exact h ⟨hcon.1, hcon.2⟩

theorem isWsChar_toUpper (c : Char) : isWsChar c.toUpper = isWsChar c := by
  by_cases h : 97 ≤ c.toNat ∧ c.toNat ≤ 122
  · obtain ⟨h1, h2⟩ := h
    have hc : c = Char.ofNat c.toNat := (Char.ofNat_toNat c).symm
    interval_cases hn : c.toNat <;> (rw [hc]; decide)
  · rw [toUpper_eq_self_of_not_lower c h]

theorem comma_toUpper (c : Char) : (c.toUpper = ',') = (c = ',') := by
  by_cases h : 97 ≤ c.toNat ∧ c.toNat ≤ 122
  · obtain ⟨h1, h2⟩ := h
    have hc : c = Char.ofNat c.toNat := (Char.ofNat_toNat c).symm
    interval_cases hn : c.toNat <;> (rw [hc]; decide)
  · rw [toUpper_eq_self_of_not_lower c h]

theorem matchLitEx_map_toUpper (pat : List Char) :
    ∀ l : List Char, matchLitEx pat (l.map Char.toUpper) =
      (matchLitCI pat l).map (List.map Char.toUpper) := by
  induction pat with
  | nil => intro l; simp [matchLitEx, matchLitCI]
  | cons p ps ih =>
    intro l
    cases l with
    | nil => simp [matchLitEx, matchLitCI]
    | cons c cs =>
      simp only [List.map_cons, matchLitEx, matchLitCI]
      by_cases h : c.toUpper = p
      · simp [h, ih]
      · simp [h]

theorem dropWhile_ws_map_toUpper (l : List Char) :
    (l.map Char.toUpper).dropWhile isWsChar = (l.dropWhile isWsChar).map Char.toUpper := by
  induction l with
  | nil => simp
  | cons c cs ih =>
    simp only [List.map_cons, List.dropWhile]
    rw [isWsChar_toUpper]
    by_cases h : isWsChar c
    · simp [h, ih]
    · simp [h]

theorem takeWs1_map_toUpper (l : List Char) :
    takeWs1 (l.map Char.toUpper) = (takeWs1 l).map (List.map Char.toUpper) := by
  cases l with
  | nil => simp [takeWs1]
  | cons c cs =>
    simp only [List.map_cons, takeWs1]
    rw [isWsChar_toUpper]
    by_cases h : isWsChar c
    · simp [h, dropWhile_ws_map_toUpper]
    · simp [h]

theorem tokChar_toUpper (c : Char) :
    (!isWsChar c.toUpper && !decide (c.toUpper = ',')) = (!isWsChar c && !decide (c = ',')) := by
  have h1 : decide (c.toUpper = ',') = decide (c = ',') :=
    decide_eq_decide.mpr (iff_of_eq (comma_toUpper c))
  rw [isWsChar_toUpper, h1]

theorem takeWhile_tok_map_toUpper (l : List Char) :
    (l.map Char.toUpper).takeWhile (fun c => !isWsChar c && c ≠ ',') =
      (l.takeWhile (fun c => !isWsChar c && c ≠ ',')).map Char.toUpper := by
  induction l with
  | nil => simp
  | cons c cs ih =>
    simp only [List.map_cons, List.takeWhile, ne_eq, decide_not]
    rw [tokChar_toUpper c]
    by_cases h : (!isWsChar c && !decide (c = ',')) = true
    · simp only [h]
      simp only [ne_eq, decide_not] at ih
      simp [ih]
    · simp only [Bool.not_eq_true] at h
      simp [h]

theorem defMatchAt_map_toUpper (l : List Char) :
    defMatchAt (l.map Char.toUpper) = (specDefaultMatchAt l).map (List.map Char.toUpper) := by
  simp only [defMatchAt, specDefaultMatchAt, matchLitEx_map_toUpper]
  cases hm : matchLitCI "DEFAULT".data l with
  | none => simp
  | some r1 =>
    simp only [Option.map_some', takeWs1_map_toUpper]
    cases hw : takeWs1 r1 with
    | none => simp
    | some r2 =>
      simp only [Option.map_some', takeWhile_tok_map_toUpper]
      cases ht : r2.takeWhile (fun c => !isWsChar c && c ≠ ',') with
      | nil => simp
      | cons x xs => simp

theorem defScan_map_toUpper (l : List Char) :
    defScan (l.map Char.toUpper) = (specDefaultScan l).map (List.map Char.toUpper) := by
  induction l with
  | nil => simp [defScan, specDefaultScan]
  | cons c cs ih =>
    have hcons : (c.toUpper :: cs.map Char.toUpper) = (c :: cs).map Char.toUpper := by simp
    simp only [defScan, specDefaultScan, List.map_cons]
    rw [show (defMatchAt (c.toUpper :: List.map Char.toUpper cs)) =
        defMatchAt ((c :: cs).map Char.toUpper) by rw [hcons]]
    rw [defMatchAt_map_toUpper]
    cases hm : specDefaultMatchAt (c :: cs) with
    | none => simpa using ih
    | some r => simp

theorem defaultValue_upper_of_clause (clause : String) (f : TableField)
    (h : parseColumnDefinition clause = some f) :
    f.defaultValue = (specDefaultToken clause).map toUpperStr := by
  by_cases hpre : (hasPrefixS (toUpperStr clause) "CONSTRAINT" ||
      hasPrefixS (toUpperStr clause) "PRIMARY KEY" ||
      hasPrefixS (toUpperStr clause) "FOREIGN KEY") = true
  · simp [parseColumnDefinition, hpre] at h
  · cases hsplit : splitWs clause with
    | nil => simp [parseColumnDefinition, hpre, hsplit] at h
    | cons p0 rest =>
      cases rest with
      | nil => simp [parseColumnDefinition, hpre, hsplit] at h
      | cons p1 rest2 =>
        simp only [parseColumnDefinition, hpre, hsplit, Bool.false_eq_true,
          if_false, reduceIte] at h
        rw [← Option.some.inj h]
        show (defScan (toUpperStr clause).data).map String.mk = _
        have hdata : (toUpperStr clause).data = clause.data.map Char.toUpper := rfl
        rw [hdata, defScan_map_toUpper]
        simp only [specDefaultToken, Option.map_map]
        congr 1

/-- Claim C8 (amended): the parsed `defaultValue` is the first
non-whitespace, non-comma token following a case-insensitively matched
`DEFAULT` in the clause, UPPER-CASED — not verbatim: the source applies the
DEFAULT regex to the upper-cased clause, which the counterexample
`a TEXT DEFAULT 'x'` (captured as `'X'`) forces into the claim. -/
theorem defaultValue_upper_of_token (clause : String) (f : TableField)
    (h : parseColumnDefinition clause = some f) :
    f.defaultValue = (specDefaultToken clause).map toUpperStr :=
  defaultValue_upper_of_clause clause f h

/-- Witness for C8 on the clause `created TIMESTAMP DEFAULT now()`. -/
theorem defaultValue_upper_of_token_witness :
    ({ name := "created", type := "timestamp", nullable := true, primaryKey := false,
       foreignKey := none, defaultValue := some "NOW()" } : TableField).defaultValue =
      (specDefaultToken "created TIMESTAMP DEFAULT now()").map toUpperStr :=
  defaultValue_upper_of_token "created TIMESTAMP DEFAULT now()" _ (by decide)

/-! ## Nullability provenance (claim C5) -/

theorem typeMapLookup_ne_serial (b : String) :
    typeMapLookup b ≠ "SERIAL" ∧ typeMapLookup b ≠ "BIGSERIAL" := by
  unfold typeMapLookup
  cases hf : typeMapPairs.find? (fun p => p.1 = b) with
  | none => simp
  | some p =>
    have hmem : p ∈ typeMapPairs := List.mem_of_find?_eq_some hf
    simp only [Option.map_some', Option.getD_some]
    fin_cases hmem <;> exact ⟨by decide, by decide⟩

theorem normalizeType_ne_serial (t : String) :
    normalizeType t ≠ "SERIAL" ∧ normalizeType t ≠ "BIGSERIAL" :=
  typeMapLookup_ne_serial _

theorem findImplicitLoop_nullable (tm : List (String × String)) (tn : String)
    (f : TableField) (pot : String) :
    ∀ (vars : List (String × List String)) (rels : List SchemaRelationship),
      ((findImplicitLoop tm tn f pot rels vars).1).nullable = f.nullable := by
  intro vars
  induction vars with
  | nil => intro rels; rfl
  | cons v restVars ih =>
    intro rels
    simp only [findImplicitLoop]
    split
    · split
      · split
        · rfl
        · rfl
      · exact ih rels
    · exact ih rels

theorem processField_nullable (tm : List (String × String))
    (tv : List (String × List String)) (tn : String) (f : TableField)
    (rels : List SchemaRelationship) :
    ((processField tm tv tn f rels).1).nullable = f.nullable := by
  unfold processField
  split
  · rfl
  · split
    · exact findImplicitLoop_nullable tm tn f _ tv rels
    · rfl

theorem processFields_mem_nullable (tm : List (String × String))
    (tv : List (String × List String)) (tn : String) :
    ∀ (fields : List TableField) (accF : List TableField)
      (rels : List SchemaRelationship) (f2 : TableField),
      f2 ∈ (fields.foldl
        (fun acc field =>
          (acc.1 ++ [(processField tm tv tn field acc.2).1],
           (processField tm tv tn field acc.2).2)) (accF, rels)).1 →
      f2 ∈ accF ∨ ∃ f1 ∈ fields, f2.nullable = f1.nullable := by
  intro fields
  induction fields with
  | nil =>
    intro accF rels f2 h
    exact Or.inl h
  | cons f fs ih =>
    intro accF rels f2 h
    simp only [List.foldl_cons] at h
    rcases ih _ _ f2 h with hacc | ⟨f1, hf1, he⟩
    · rcases List.mem_append.mp hacc with h1 | h2
      · exact Or.inl h1
      · right
        refine ⟨f, List.mem_cons_self f fs, ?_⟩
        rw [List.mem_singleton.mp h2]
        exact processField_nullable tm tv tn f rels
    · exact Or.inr ⟨f1, List.mem_cons_of_mem f hf1, he⟩

theorem detectImplicit_mem_nullable (tables : List TableSchema)
    (rels : List SchemaRelationship) (t2 : TableSchema) (f2 : TableField)
    (ht : t2 ∈ (detectImplicitRelationships tables rels).1)
    (hf : f2 ∈ t2.fields) :
    ∃ t1 ∈ tables, ∃ f1 ∈ t1.fields, f2.nullable = f1.nullable := by
  unfold detectImplicitRelationships at ht
  suffices hgen : ∀ (ts : List TableSchema) (accT : List TableSchema)
      (r : List SchemaRelationship),
      t2 ∈ (ts.foldl (fun acc table =>
        (acc.1 ++ [{ table with fields := (processFields (buildMaps tables).1
            (buildMaps tables).2 table.name table.fields acc.2).1 }],
         (processFields (buildMaps tables).1 (buildMaps tables).2
            table.name table.fields acc.2).2)) (accT, r)).1 →
      t2 ∈ accT ∨ ∃ t1 ∈ ts, ∃ f1 ∈ t1.fields, f2.nullable = f1.nullable by
    rcases hgen tables [] rels ht with h | h
    · simp at h
    · exact h
  intro ts
  induction ts with
  | nil =>
    intro accT r h
    exact Or.inl h
  | cons t tsr ih =>
    intro accT r h
    simp only [List.foldl_cons] at h
    rcases ih _ _ h with hacc | ⟨t1, ht1, hrest⟩
    · rcases List.mem_append.mp hacc with h1 | h2
      · exact Or.inl h1
      · right
        refine ⟨t, List.mem_cons_self t tsr, ?_⟩
        have ht2 : t2 = { t with fields := (processFields (buildMaps tables).1
            (buildMaps tables).2 t.name t.fields r).1 } := List.mem_singleton.mp h2
        have hff : f2 ∈ (processFields (buildMaps tables).1 (buildMaps tables).2
            t.name t.fields r).1 := by
          rw [ht2] at hf
          exact hf
        have hres := processFields_mem_nullable (buildMaps tables).1 (buildMaps tables).2
          t.name t.fields [] r f2 hff
        rcases hres with h0 | h0
        · simp at h0
        · exact h0
    · exact Or.inr ⟨t1, List.mem_cons_of_mem t ht1, hrest⟩

/-- Helper for C5: at clause level, `nullable` is false exactly when the
upper-cased clause contains `NOT NULL` (the SERIAL branch never fires). -/
theorem parseColumnDefinition_nullable_iff (clause : String) (f : TableField)
    (h : parseColumnDefinition clause = some f) :
    (f.nullable = false ↔ containsSub (toUpperStr clause) "NOT NULL" = true) := by
  by_cases hpre : (hasPrefixS (toUpperStr clause) "CONSTRAINT" ||
      hasPrefixS (toUpperStr clause) "PRIMARY KEY" ||
      hasPrefixS (toUpperStr clause) "FOREIGN KEY") = true
  · simp [parseColumnDefinition, hpre] at h
  · cases hsplit : splitWs clause with
    | nil => simp [parseColumnDefinition, hpre, hsplit] at h
    | cons p0 rest =>
      cases rest with
      | nil => simp [parseColumnDefinition, hpre, hsplit] at h
      | cons p1 rest2 =>
        simp only [parseColumnDefinition, hpre, hsplit, Bool.false_eq_true,
          if_false, reduceIte] at h
        rw [← Option.some.inj h]
        have hn := normalizeType_ne_serial (toUpperStr p1)
        show (if (decide (normalizeType (toUpperStr p1) = "SERIAL") ||
            decide (normalizeType (toUpperStr p1) = "BIGSERIAL")) = true
          then ((true : Bool), (false : Bool))
          else (containsSub (toUpperStr clause) "PRIMARY KEY",
                !containsSub (toUpperStr clause) "NOT NULL")).2 = false ↔ _
        rw [if_neg (by simp [hn.1, hn.2])]
        simp

/-- Claim C5 (amended): every field of every Schema returned by `parseSQL`
comes from a column clause of the input, keeps that clause's nullability, and
its `nullable` is false EXACTLY when the (upper-cased) clause contains
`NOT NULL`.  Primary-key status does NOT force non-nullability — that part of
the claim fails on the counterexample `id INTEGER PRIMARY KEY` — because the
only branch that would force it (the SERIAL idiom branch) compares the
already-normalized type with `'SERIAL'` and is unreachable. -/
theorem nullable_iff_clause_contains_not_null (s : String) (t : TableSchema)
    (f : TableField) (ht : t ∈ (parseSQL s).tables) (hf : f ∈ t.fields) :
    ∃ nb ∈ scanTables ((cleanSQL s).length + 1) (cleanSQL s),
      ∃ clause ∈ splitColumnDefinitions (String.mk nb.2),
        ∃ f0, parseColumnDefinition (trimS clause) = some f0 ∧
          f.nullable = f0.nullable ∧
          (f.nullable = false ↔ containsSub (toUpperStr (trimS clause)) "NOT NULL" = true) := by
  have htables : (parseSQL s).tables =
      (detectImplicitRelationships
        ((scanTables ((cleanSQL s).length + 1) (cleanSQL s)).map tableFromRaw)
        ((scanTables ((cleanSQL s).length + 1) (cleanSQL s)).flatMap explicitRelsFromRaw)).1 := rfl
  rw [htables] at ht
  obtain ⟨t1, ht1, f1, hf1, hnul⟩ := detectImplicit_mem_nullable _ _ t f ht hf
  obtain ⟨nb, hnb, heq⟩ := List.mem_map.mp ht1
  rw [← heq] at hf1
  have hmem : f1 ∈ (parseColumnDefinitions (String.mk nb.2)).1 := hf1
  unfold parseColumnDefinitions at hmem
  obtain ⟨clause, hcl, hpc⟩ := List.mem_filterMap.mp hmem
  refine ⟨nb, hnb, clause, hcl, f1, hpc, hnul, ?_⟩
  rw [hnul]
  exact parseColumnDefinition_nullable_iff _ _ hpc

/-- Witness for C5 on `CREATE TABLE t (a TEXT NOT NULL);`. -/
theorem nullable_iff_clause_witness :
    ∃ nb ∈ scanTables ((cleanSQL "CREATE TABLE t (a TEXT NOT NULL);").length + 1)
        (cleanSQL "CREATE TABLE t (a TEXT NOT NULL);"),
      ∃ clause ∈ splitColumnDefinitions (String.mk nb.2),
        ∃ f0, parseColumnDefinition (trimS clause) = some f0 ∧
          ({ name := "a", type := "text", nullable := false, primaryKey := false,
             foreignKey := none, defaultValue := none } : TableField).nullable = f0.nullable ∧
          (({ name := "a", type := "text", nullable := false, primaryKey := false,
              foreignKey := none, defaultValue := none } : TableField).nullable = false ↔
            containsSub (toUpperStr (trimS clause)) "NOT NULL" = true) :=
  nullable_iff_clause_contains_not_null "CREATE TABLE t (a TEXT NOT NULL);"
    { name := "t",
      fields := [{ name := "a", type := "text", nullable := false, primaryKey := false,
                   foreignKey := none, defaultValue := none }] }
    { name := "a", type := "text", nullable := false, primaryKey := false,
      foreignKey := none, defaultValue := none }
    (by decide) (by decide)

/-! ## Relationship/foreignKey counting (claim C4) -/

theorem countRel_append (a b : List SchemaRelationship) (r : SchemaRelationship) :
    countRel (a ++ b) r = countRel a r + countRel b r := by
  induction a with
  | nil => simp [countRel]
  | cons x xs ih => simp [countRel, ih]; omega

theorem countFieldFK_append (tname : String) (a b : List TableField)
    (r : SchemaRelationship) :
    countFieldFK tname (a ++ b) r = countFieldFK tname a r + countFieldFK tname b r := by
  induction a with
  | nil => simp [countFieldFK]
  | cons x xs ih => simp [countFieldFK, ih]; omega

theorem countTablesFK_append (a b : List TableSchema) (r : SchemaRelationship) :
    countTablesFK (a ++ b) r = countTablesFK a r + countTablesFK b r := by
  induction a with
  | nil => simp [countTablesFK]
  | cons x xs ih => simp [countTablesFK, ih]; omega

theorem fkIndicator_none (tname : String) (f : TableField) (r : SchemaRelationship)
    (h : f.foreignKey = none) : fkIndicator tname f r = 0 := by
  simp [fkIndicator, h]

theorem countRel_explicit (tname : String) :
    ∀ (fields : List TableField) (r : SchemaRelationship),
      countRel ((fields.filterMap
          (fun f => f.foreignKey.map (fun fk => (f.name, fk.table, fk.column)))).map
        (fun p => ⟨tname, p.1, p.2.1, p.2.2⟩)) r = countFieldFK tname fields r := by
  intro fields
  induction fields with
  | nil => intro r; simp [countRel, countFieldFK]
  | cons f fs ih =>
    intro r
    cases hfk : f.foreignKey with
    | none =>
      simp only [List.filterMap_cons, hfk, Option.map_none']
      rw [countFieldFK, fkIndicator_none tname f r hfk]
      simpa using ih r
    | some fk =>
      simp only [List.filterMap_cons, hfk, Option.map_some', List.map_cons]
      rw [countFieldFK, countRel]
      obtain ⟨rft, rff, rtt, rtf⟩ := r
      obtain ⟨fkt, fkc⟩ := fk
      by_cases hc : tname = rft ∧ f.name = rff ∧ fkt = rtt ∧ fkc = rtf
      · obtain ⟨h1, h2, h3, h4⟩ := hc
        subst h1; subst h2; subst h3; subst h4
        rw [ih]
        simp [fkIndicator, hfk]
      · have hne : (⟨tname, f.name, fkt, fkc⟩ : SchemaRelationship) ≠ ⟨rft, rff, rtt, rtf⟩ := by
          intro he
          injection he with e1 e2 e3 e4
          exact hc ⟨e1, e2, e3, e4⟩
        have hind : fkIndicator tname f ⟨rft, rff, rtt, rtf⟩ = 0 := by
          simp only [fkIndicator, hfk]
          rw [if_neg]
          intro hcon
          obtain ⟨h1, h2, h3⟩ := hcon
          injection h3 with h3
          injection h3 with h3a h3b
          exact hc ⟨h1, h2, h3a, h3b⟩
        rw [if_neg hne, hind, ih]

theorem countRel_explicit_phase :
    ∀ (raws : List (List Char × List Char)) (r : SchemaRelationship),
      countRel (raws.flatMap explicitRelsFromRaw) r =
        countTablesFK (raws.map tableFromRaw) r := by
  intro raws
  induction raws with
  | nil => intro r; simp [countRel, countTablesFK]
  | cons nb rest ih =>
    intro r
    simp only [List.flatMap_cons, List.map_cons]
    rw [countRel_append, ih, countTablesFK]
    congr 1
    exact countRel_explicit (toLowerStr (String.mk nb.1))
      (parseColumnDefinitions (String.mk nb.2)).1 r

theorem findImplicitLoop_count (tm : List (String × String)) (tn : String)
    (f : TableField) (pot : String) (hfk : f.foreignKey = none) :
    ∀ (vars : List (String × List String)) (rels : List SchemaRelationship)
      (r : SchemaRelationship),
      countRel (findImplicitLoop tm tn f pot rels vars).2 r =
        countRel rels r + fkIndicator tn (findImplicitLoop tm tn f pot rels vars).1 r := by
  intro vars
  induction vars with
  | nil =>
    intro rels r
    simp [findImplicitLoop, fkIndicator_none tn f r hfk]
  | cons v restVars ih =>
    intro rels r
    obtain ⟨tableName, variations⟩ := v
    simp only [findImplicitLoop]
    split
    · cases hg : mapGet tm tableName with
      | none => exact ih rels r
      | some pkField =>
        simp only []
        split
        · simp [fkIndicator_none tn f r hfk]
        · simp only []
          rw [countRel_append, countRel]
          obtain ⟨rft, rff, rtt, rtf⟩ := r
          by_cases hc : tn = rft ∧ f.name = rff ∧ tableName = rtt ∧ pkField = rtf
          · obtain ⟨h1, h2, h3, h4⟩ := hc
            subst h1; subst h2; subst h3; subst h4
            simp [countRel, fkIndicator]
          · have hne : (⟨tn, f.name, tableName, pkField⟩ : SchemaRelationship) ≠
                ⟨rft, rff, rtt, rtf⟩ := by
              intro he
              injection he with e1 e2 e3 e4
              exact hc ⟨e1, e2, e3, e4⟩
            have hind : fkIndicator tn
                ({ f with foreignKey := some ⟨tableName, pkField⟩ } : TableField)
                ⟨rft, rff, rtt, rtf⟩ = 0 := by
              simp only [fkIndicator]
              rw [if_neg]
              intro hcon
              obtain ⟨h1, h2, h3⟩ := hcon
              simp only [Option.some.injEq] at h3
              injection h3 with h3a h3b
              exact hc ⟨h1, h2, h3a, h3b⟩
            rw [if_neg hne, hind]
            simp [countRel]
    · exact ih rels r

theorem processField_count (tm : List (String × String))
    (tv : List (String × List String)) (tn : String) (f : TableField)
    (rels : List SchemaRelationship) (r : SchemaRelationship) :
    countRel (processField tm tv tn f rels).2 r + fkIndicator tn f r =
      countRel rels r + fkIndicator tn (processField tm tv tn f rels).1 r := by
  unfold processField
  split
  · rfl
  · rename_i hnone
    split
    · have hfk : f.foreignKey = none := by
        cases hh : f.foreignKey with
        | none => rfl
        | some v => rw [hh] at hnone; simp at hnone
      rw [fkIndicator_none tn f r hfk]
      rw [findImplicitLoop_count tm tn f _ hfk tv rels r]
      omega
    · rfl

theorem processFields_count (tm : List (String × String))
    (tv : List (String × List String)) (tn : String) :
    ∀ (fields : List TableField) (accF : List TableField)
      (rels : List SchemaRelationship) (r : SchemaRelationship),
      countRel (fields.foldl
          (fun acc field =>
            (acc.1 ++ [(processField tm tv tn field acc.2).1],
             (processField tm tv tn field acc.2).2)) (accF, rels)).2 r +
        countFieldFK tn fields r + countFieldFK tn accF r =
      countRel rels r +
        countFieldFK tn (fields.foldl
          (fun acc field =>
            (acc.1 ++ [(processField tm tv tn field acc.2).1],
             (processField tm tv tn field acc.2).2)) (accF, rels)).1 r := by
  intro fields
  induction fields with
  | nil =>
    intro accF rels r
    simp [countFieldFK]
  | cons f fs ih =>
    intro accF rels r
    simp only [List.foldl_cons]
    have hstep := processField_count tm tv tn f rels r
    have hih := ih (accF ++ [(processField tm tv tn f rels).1])
      (processField tm tv tn f rels).2 r
    rw [countFieldFK_append] at hih
    simp only [countFieldFK] at hih ⊢
    omega

theorem processFields_count_main (tm : List (String × String))
    (tv : List (String × List String)) (tn : String) (fields : List TableField)
    (rels : List SchemaRelationship) (r : SchemaRelationship) :
    countRel (processFields tm tv tn fields rels).2 r + countFieldFK tn fields r =
      countRel rels r + countFieldFK tn (processFields tm tv tn fields rels).1 r := by
  have h0 := processFields_count tm tv tn fields [] rels r
  simp only [countFieldFK] at h0
  unfold processFields
  omega

theorem detectImplicit_count (tables : List TableSchema)
    (rels : List SchemaRelationship) (r : SchemaRelationship) :
    countRel (detectImplicitRelationships tables rels).2 r +
      countTablesFK tables r =
    countRel rels r +
      countTablesFK (detectImplicitRelationships tables rels).1 r := by
  suffices hgen : ∀ (ts : List TableSchema) (accT : List TableSchema)
      (rl : List SchemaRelationship),
      countRel (ts.foldl (fun acc table =>
          (acc.1 ++ [{ table with fields := (processFields (buildMaps tables).1
              (buildMaps tables).2 table.name table.fields acc.2).1 }],
           (processFields (buildMaps tables).1 (buildMaps tables).2
              table.name table.fields acc.2).2)) (accT, rl)).2 r +
        countTablesFK ts r + countTablesFK accT r =
      countRel rl r +
        countTablesFK (ts.foldl (fun acc table =>
          (acc.1 ++ [{ table with fields := (processFields (buildMaps tables).1
              (buildMaps tables).2 table.name table.fields acc.2).1 }],
           (processFields (buildMaps tables).1 (buildMaps tables).2
              table.name table.fields acc.2).2)) (accT, rl)).1 r by
    have h0 := hgen tables [] rels
    simp only [countTablesFK] at h0
    unfold detectImplicitRelationships
    omega
  intro ts
  induction ts with
  | nil =>
    intro accT rl
    simp [countTablesFK]
  | cons t tsr ih =>
    intro accT rl
    simp only [List.foldl_cons]
    have hstep := processFields_count_main (buildMaps tables).1 (buildMaps tables).2
      t.name t.fields rl r
    have hih := ih (accT ++ [{ t with fields :=
        (processFields (buildMaps tables).1 (buildMaps tables).2 t.name t.fields rl).1 }])
      (processFields (buildMaps tables).1 (buildMaps tables).2 t.name t.fields rl).2
    rw [countTablesFK_append] at hih
    simp only [countTablesFK] at hih ⊢
    omega

/-- Claim C4 (amended): in every Schema returned by `parseSQL`, for every
relationship value `r`, the number of occurrences of `r` in the relationships
list EQUALS the number of fields (over all tables) whose enclosing table name,
field name and `foreignKey` realize `r`.  The one-to-one "exactly one Field"
form of the claim fails when duplicate table or column names occur (see the
counterexample), but this count form holds unconditionally: explicit parsing
pushes one relationship per foreign-keyed field, and the implicit pass adds a
relationship exactly when it also sets the matching field's `foreignKey`. -/
theorem relationship_fk_count_eq (s : String) (r : SchemaRelationship) :
    countRel (parseSQL s).relationships r = countTablesFK (parseSQL s).tables r := by
  have hexp := countRel_explicit_phase (scanTables ((cleanSQL s).length + 1) (cleanSQL s)) r
  have himp := detectImplicit_count
    ((scanTables ((cleanSQL s).length + 1) (cleanSQL s)).map tableFromRaw)
    ((scanTables ((cleanSQL s).length + 1) (cleanSQL s)).flatMap explicitRelsFromRaw) r
  show countRel (detectImplicitRelationships
      ((scanTables ((cleanSQL s).length + 1) (cleanSQL s)).map tableFromRaw)
      ((scanTables ((cleanSQL s).length + 1) (cleanSQL s)).flatMap explicitRelsFromRaw)).2 r =
    countTablesFK (detectImplicitRelationships
      ((scanTables ((cleanSQL s).length + 1) (cleanSQL s)).map tableFromRaw)
      ((scanTables ((cleanSQL s).length + 1) (cleanSQL s)).flatMap explicitRelsFromRaw)).1 r
  omega

/-! ## Scanner-skip and cleanup decomposition lemmas (claim C6) -/

theorem tryMatch_nonC (c : Char) (l : List Char) (h : ¬ c.toUpper = 'C') :
    tryMatch (c :: l) = none := by
  unfold tryMatch
  have hm : matchLitCI "CREATE".data (c :: l) = none := by
    show matchLitCI ('C' :: "REATE".data) (c :: l) = none
    unfold matchLitCI
    rw [if_neg h]
  rw [hm]

theorem scanTables_skip (fuel : Nat) (c : Char) (l : List Char)
    (h : ¬ c.toUpper = 'C') :
    scanTables (fuel + 1) (c :: l) = scanTables fuel l := by
  have h0 : scanTables (fuel + 1) (c :: l) =
      match tryMatch (c :: l) with
      | some nbr => (nbr.1, nbr.2.1) :: scanTables fuel nbr.2.2
      | none => scanTables fuel l := rfl
  rw [h0, tryMatch_nonC c l h]

theorem scanTables_prepend :
    ∀ (P : List Char), (∀ c ∈ P, ¬ c.toUpper = 'C') →
      ∀ (fuel : Nat) (l : List Char),
        scanTables (P.length + fuel) (P ++ l) = scanTables fuel l := by
  intro P
  induction P with
  | nil => intro _ fuel l; simp
  | cons c P2 ih =>
    intro hP fuel l
    have hc : ¬ c.toUpper = 'C' := hP c (List.mem_cons_self c P2)
    have h2 : ∀ x ∈ P2, ¬ x.toUpper = 'C' := fun x hx => hP x (List.mem_cons_of_mem c hx)
    show scanTables (P2.length + 1 + fuel) (c :: (P2 ++ l)) = scanTables fuel l
    have harith : P2.length + 1 + fuel = (P2.length + fuel) + 1 := by omega
    rw [harith, scanTables_skip (P2.length + fuel) c (P2 ++ l) hc]
    exact ih h2 fuel l

theorem stripCommentsAux_cons_ne (c : Char) (h : ¬ c = '-') (l : List Char) :
    stripCommentsAux 0 (c :: l) = c :: stripCommentsAux 0 l := by
  simp [stripCommentsAux, h]

theorem stripComments_append_no_dash (P : List Char) (h : ∀ c ∈ P, ¬ c = '-') :
    ∀ l : List Char, stripCommentsAux 0 (P ++ l) = P ++ stripCommentsAux 0 l := by
  induction P with
  | nil => intro l; simp
  | cons c P2 ih =>
    intro l
    have hc : ¬ c = '-' := h c (List.mem_cons_self c P2)
    have h2 : ∀ x ∈ P2, ¬ x = '-' := fun x hx => h x (List.mem_cons_of_mem c hx)
    show stripCommentsAux 0 (c :: (P2 ++ l)) = (c :: P2) ++ stripCommentsAux 0 l
    rw [stripCommentsAux_cons_ne c hc, ih h2 l]
    rfl

theorem collapseWs_cons_nonws (c : Char) (h : ¬ isWsChar c = true) (l : List Char) :
    collapseWsAux false (c :: l) = c :: collapseWsAux false l := by
  simp [collapseWsAux, h]

theorem collapseWs_append_nonws (P : List Char) (h : ∀ c ∈ P, ¬ isWsChar c = true) :
    ∀ l : List Char, collapseWsAux false (P ++ l) = P ++ collapseWsAux false l := by
  induction P with
  | nil => intro l; simp
  | cons c P2 ih =>
    intro l
    have hc := h c (List.mem_cons_self c P2)
    have h2 : ∀ x ∈ P2, ¬ isWsChar x = true := fun x hx => h x (List.mem_cons_of_mem c hx)
    show collapseWsAux false (c :: (P2 ++ l)) = (c :: P2) ++ collapseWsAux false l
    rw [collapseWs_cons_nonws c hc, ih h2 l]
    rfl

theorem dropWhile_append_headne (p : Char → Bool) :
    ∀ (a : List Char) (d : Char) (bs : List Char), p d = false →
      (a ++ d :: bs).dropWhile p = a.dropWhile p ++ d :: bs := by
  intro a
  induction a with
  | nil =>
    intro d bs hd
    simp [List.dropWhile, hd]
  | cons c a2 ih =>
    intro d bs hd
    show ((c :: (a2 ++ d :: bs)).dropWhile p) = _
    rw [List.dropWhile_cons]
    by_cases hc : p c = true
    · rw [if_pos hc, ih d bs hd, List.dropWhile_cons, if_pos hc]
    · rw [if_neg hc, List.dropWhile_cons]
      simp only [Bool.not_eq_true] at hc
      simp [hc]

theorem dropWhile_append_memne (p : Char → Bool) :
    ∀ (a : List Char) (b : List Char), (∃ x ∈ a, p x = false) →
      (a ++ b).dropWhile p = a.dropWhile p ++ b := by
  intro a
  induction a with
  | nil =>
    intro b h
    simp at h
  | cons c a2 ih =>
    intro b h
    rw [List.cons_append, List.dropWhile_cons, List.dropWhile_cons]
    by_cases hc : p c = true
    · rw [if_pos hc, if_pos hc]
      apply ih
      obtain ⟨x, hx, hpx⟩ := h
      rcases List.mem_cons.mp hx with he | hm
      · subst he; rw [hpx] at hc; exact absurd hc (by simp)
      · exact ⟨x, hm, hpx⟩
    · rw [if_neg hc, if_neg hc]
      simp

theorem ws_toUpper_ne_C (c : Char) (h : isWsChar c = true) : ¬ c.toUpper = 'C' := by
  simp only [isWsChar, Bool.or_eq_true, decide_eq_true_eq] at h
  rcases h with ((((h | h) | h) | h) | h) | h <;> (subst h; decide)

theorem dropWhile_head_false (p : Char → Bool) :
    ∀ (l : List Char) (d : Char) (vs : List Char),
      l.dropWhile p = d :: vs → p d = false := by
  intro l
  induction l with
  | nil => intro d vs h; simp [List.dropWhile] at h
  | cons c cs ih =>
    intro d vs h
    rw [List.dropWhile_cons] at h
    by_cases hc : p c = true
    · rw [if_pos hc] at h
      exact ih d vs h
    · rw [if_neg hc] at h
      injection h with h1 _
      subst h1
      simpa using hc

theorem cleanSQL_junk_append (s : String) :
    cleanSQL ("junk;" ++ s) =
      "junk;".data ++
        ((collapseWs (stripComments s.data)).reverse.dropWhile isWsChar).reverse := by
  show trimL (collapseWsAux false (stripCommentsAux 0 ("junk;".data ++ s.data))) = _
  rw [stripComments_append_no_dash "junk;".data (by decide) s.data]
  rw [collapseWs_append_nonws "junk;".data (by decide)]
  show ((("junk;".data ++ collapseWsAux false (stripCommentsAux 0 s.data)).dropWhile
      isWsChar).reverse.dropWhile isWsChar).reverse = _
  have h1 : ("junk;".data ++ collapseWsAux false (stripCommentsAux 0 s.data)).dropWhile
      isWsChar = "junk;".data ++ collapseWsAux false (stripCommentsAux 0 s.data) := by
    rw [show "junk;".data ++ collapseWsAux false (stripCommentsAux 0 s.data) =
        'j' :: ("unk;".data ++ collapseWsAux false (stripCommentsAux 0 s.data)) from rfl]
    rw [List.dropWhile_cons, if_neg (by decide : ¬ isWsChar 'j' = true)]
  rw [h1, List.reverse_append]
  rw [show ("junk;".data : List Char).reverse = ';' :: "knuj".data from by decide]
  rw [dropWhile_append_headne isWsChar _ ';' "knuj".data (by decide)]
  rw [List.reverse_append]
  rfl

theorem scan_clean_junk (s : String) :
    scanTables ((cleanSQL ("junk;" ++ s)).length + 1) (cleanSQL ("junk;" ++ s)) =
      scanTables ((cleanSQL s).length + 1) (cleanSQL s) := by
  have hw : cleanSQL s =
      (((collapseWs (stripComments s.data)).dropWhile isWsChar).reverse.dropWhile
        isWsChar).reverse := rfl
  set w := collapseWs (stripComments s.data) with hwdef
  have hjunkC : ∀ c ∈ ("junk;".data : List Char), ¬ c.toUpper = 'C' := by decide
  rw [cleanSQL_junk_append s]
  cases hv : w.dropWhile isWsChar with
  | nil =>
    have hall : ∀ x ∈ w, isWsChar x := List.dropWhile_eq_nil_iff.mp hv
    have hrev : w.reverse.dropWhile isWsChar = [] := by
      rw [List.dropWhile_eq_nil_iff]
      intro x hx
      exact hall x (List.mem_reverse.mp hx)
    rw [hrev]
    have hclean2 : cleanSQL s = [] := by
      rw [hw, hv]
      rfl
    rw [hclean2]
    simp only [List.reverse_nil, List.append_nil, List.length_nil]
    have := scanTables_prepend "junk;".data hjunkC 1 []
    simpa using this
  | cons d vs =>
    have hd : isWsChar d = false := dropWhile_head_false isWsChar w d vs hv
    have hdecomp : w = w.takeWhile isWsChar ++ (d :: vs) := by
      rw [← hv]
      exact (List.takeWhile_append_dropWhile isWsChar w).symm
    have hsplit : w.reverse.dropWhile isWsChar =
        (d :: vs).reverse.dropWhile isWsChar ++ (w.takeWhile isWsChar).reverse := by
      conv_lhs => rw [hdecomp]
      rw [List.reverse_append]
      apply dropWhile_append_memne
      exact ⟨d, by simp, hd⟩
    rw [hsplit, List.reverse_append]
    have hclean2 : cleanSQL s = ((d :: vs).reverse.dropWhile isWsChar).reverse := by
      rw [hw, hv]
    rw [hclean2]
    have huC : ∀ c ∈ (w.takeWhile isWsChar), ¬ c.toUpper = 'C' := by
      intro c hc
      exact ws_toUpper_ne_C c (List.mem_takeWhile_imp hc)
    have hlen : ("junk;".data ++ ((w.takeWhile isWsChar) ++
        ((d :: vs).reverse.dropWhile isWsChar).reverse)).length + 1 =
        ("junk;".data).length + ((w.takeWhile isWsChar).length +
          ((((d :: vs).reverse.dropWhile isWsChar).reverse).length + 1)) := by
      simp [List.length_append]
      omega
    rw [show "junk;".data ++ ((w.takeWhile isWsChar).reverse.reverse ++
        ((d :: vs).reverse.dropWhile isWsChar).reverse) = "junk;".data ++
        ((w.takeWhile isWsChar) ++ ((d :: vs).reverse.dropWhile isWsChar).reverse) from by
      rw [List.reverse_reverse]]
    rw [hlen]
    rw [scanTables_prepend "junk;".data hjunkC _ _]
    rw [scanTables_prepend (w.takeWhile isWsChar) huC _ _]

/-- Claim C6: `parseSQL` is a total function — in this embedding every input
string produces a `ParsedSchema`, and the source has no throw sites (its only
operations are regex scans, string splits and array pushes) — and statements
that do not match the CREATE TABLE shape are skipped without preventing later
statements from being parsed: prepending the unparseable statement `junk;` to
ANY input leaves the parse result unchanged; empty and garbage inputs give the
empty schema; garbage followed by a valid statement still parses the valid
statement. -/
theorem parseSQL_total_skips_garbage :
    (∀ s : String, parseSQL ("junk;" ++ s) = parseSQL s) ∧
    parseSQL "" = { tables := [], relationships := [] } ∧
    parseSQL "This is not SQL (at all);" = { tables := [], relationships := [] } ∧
    (parseSQL "junk; CREATE TABLE t (a INT);").tables.length = 1 := by
  refine ⟨?_, by decide, by decide, by decide⟩
  intro s
  have hscan := scan_clean_junk s
  have h1 : parseSQL ("junk;" ++ s) =
      { tables := (detectImplicitRelationships
          ((scanTables ((cleanSQL ("junk;" ++ s)).length + 1)
            (cleanSQL ("junk;" ++ s))).map tableFromRaw)
          ((scanTables ((cleanSQL ("junk;" ++ s)).length + 1)
            (cleanSQL ("junk;" ++ s))).flatMap explicitRelsFromRaw)).1,
        relationships := (detectImplicitRelationships
          ((scanTables ((cleanSQL ("junk;" ++ s)).length + 1)
            (cleanSQL ("junk;" ++ s))).map tableFromRaw)
          ((scanTables ((cleanSQL ("junk;" ++ s)).length + 1)
            (cleanSQL ("junk;" ++ s))).flatMap explicitRelsFromRaw)).2 } := rfl
  have h2 : parseSQL s =
      { tables := (detectImplicitRelationships
          ((scanTables ((cleanSQL s).length + 1) (cleanSQL s)).map tableFromRaw)
          ((scanTables ((cleanSQL s).length + 1) (cleanSQL s)).flatMap
            explicitRelsFromRaw)).1,
        relationships := (detectImplicitRelationships
          ((scanTables ((cleanSQL s).length + 1) (cleanSQL s)).map tableFromRaw)
          ((scanTables ((cleanSQL s).length + 1) (cleanSQL s)).flatMap
            explicitRelsFromRaw)).2 } := rfl
  rw [h1, h2, hscan]

/-! ## C1 helper lemmas: word runs and local regex refutation -/

/-- A whitespace character is not a word character. -/
theorem ws_not_word (c : Char) (h : isWsChar c = true) : isWordChar c = false := by
  simp only [isWsChar, Bool.or_eq_true, decide_eq_true_eq] at h
  rcases h with ((((h | h) | h) | h) | h) | h <;> (subst h; decide)

/-- A word character is not whitespace. -/
theorem word_not_ws (c : Char) (h : isWordChar c = true) : isWsChar c = false := by
  cases hw : isWsChar c
  · rfl
  · rw [ws_not_word c hw] at h
    exact absurd h (by decide)

/-- A word character is not a dash. -/
theorem word_ne_dash (c : Char) (h : isWordChar c = true) : ¬ c = '-' := by
  intro he
  subst he
  exact absurd h (by decide)

/-- If the upper-cased character is a word character, so is the original. -/
theorem isWordChar_of_toUpper (c : Char) (h : isWordChar c.toUpper = true) :
    isWordChar c = true := by
  by_cases hl : 97 ≤ c.toNat ∧ c.toNat ≤ 122
  · obtain ⟨h1, h2⟩ := hl
    have hc : c = Char.ofNat c.toNat := (Char.ofNat_toNat c).symm
    interval_cases hn : c.toNat <;> (rw [hc]; decide)
  · rwa [toUpper_eq_self_of_not_lower c hl] at h

/-- Failed CREATE literal kills the whole match. -/
theorem tryMatch_of_none (l : List Char) (h : matchLitCI "CREATE".data l = none) :
    tryMatch l = none := by
  unfold tryMatch
  rw [h]

/-- Successful CREATE literal hands over to the tail. -/
theorem tryMatch_of_some (l r1 : List Char) (h : matchLitCI "CREATE".data l = some r1) :
    tryMatch l = tryTail1 r1 := by
  unfold tryMatch
  rw [h]

/-- Failed whitespace after CREATE kills the tail. -/
theorem tryTail1_of_none (r1 : List Char) (h : takeWs1 r1 = none) :
    tryTail1 r1 = none := by
  unfold tryTail1
  rw [h]

/-- Successful whitespace after CREATE hands over to the TABLE tail. -/
theorem tryTail1_of_some (r1 r2 : List Char) (h : takeWs1 r1 = some r2) :
    tryTail1 r1 = tryTail2 r2 := by
  unfold tryTail1
  rw [h]

/-- Failed TABLE literal kills the tail. -/
theorem tryTail2_of_none (r2 : List Char) (h : matchLitCI "TABLE".data r2 = none) :
    tryTail2 r2 = none := by
  unfold tryTail2
  rw [h]

/-- Matching an all-letter literal inside a word run: either the match
fails, or it consumes only word-run characters. -/
theorem matchLitCI_word_run (pat : List Char) (hpat : ∀ p ∈ pat, isWordChar p = true) :
    ∀ (w rest : List Char), (∀ c ∈ w, isWordChar c = true) →
      headNonWordB rest = true →
      matchLitCI pat (w ++ rest) = none ∨
        (pat.length ≤ w.length ∧
          matchLitCI pat (w ++ rest) = some (w.drop pat.length ++ rest)) := by
  induction pat with
  | nil => intro w rest _ _; right; exact ⟨Nat.zero_le _, rfl⟩
  | cons p ps ih =>
    intro w rest hw hrest
    cases w with
    | nil =>
      left
      cases rest with
      | nil => rfl
      | cons c cs =>
        show matchLitCI (p :: ps) (c :: cs) = none
        unfold matchLitCI
        rw [if_neg]
        intro hc
        have hcw : isWordChar c = true :=
          isWordChar_of_toUpper c (by rw [hc]; exact hpat p (List.mem_cons_self p ps))
        have hh : headNonWordB (c :: cs) = !isWordChar c := rfl
        rw [hh, hcw] at hrest
        exact absurd hrest (by decide)
    | cons a as =>
      by_cases ha : a.toUpper = p
      · have hrec := ih (fun q hq => hpat q (List.mem_cons_of_mem p hq)) as rest
          (fun c hc => hw c (List.mem_cons_of_mem a hc)) hrest
        rcases hrec with hnone | ⟨hlen, heq⟩
        · left
          show matchLitCI (p :: ps) (a :: (as ++ rest)) = none
          unfold matchLitCI
          rw [if_pos ha]
          exact hnone
        · right
          refine ⟨Nat.succ_le_succ hlen, ?_⟩
          show matchLitCI (p :: ps) (a :: (as ++ rest)) =
            some ((a :: as).drop (p :: ps).length ++ rest)
          unfold matchLitCI
          rw [if_pos ha]
          exact heq
      · left
        show matchLitCI (p :: ps) (a :: (as ++ rest)) = none
        unfold matchLitCI
        rw [if_neg ha]

/-- A word run followed by blocking text never matches the whole regex. -/
theorem tryMatch_word_run (w rest : List Char) (hw : ∀ c ∈ w, isWordChar c = true)
    (hrw : headNonWordB rest = true) (hrb : RestBlocks rest) :
    tryMatch (w ++ rest) = none := by
  have hpat : ∀ p ∈ ("CREATE".data : List Char), isWordChar p = true := by decide
  rcases matchLitCI_word_run "CREATE".data hpat w rest hw hrw with hnone | ⟨hlen, heq⟩
  · exact tryMatch_of_none _ hnone
  · rw [tryMatch_of_some _ _ heq]
    cases hwd : w.drop ("CREATE".data : List Char).length with
    | nil =>
      rw [List.nil_append]
      rcases hrb with h1 | ⟨r2, h2, h3⟩
      · exact tryTail1_of_none _ h1
      · rw [tryTail1_of_some _ _ h2]
        exact tryTail2_of_none _ h3
    | cons a as =>
      have haw : isWordChar a = true := by
        have hsub := (List.drop_sublist ("CREATE".data : List Char).length w).subset
        rw [hwd] at hsub
        exact hw a (hsub (List.mem_cons_self a as))
      show tryTail1 (a :: (as ++ rest)) = none
      refine tryTail1_of_none _ ?_
      have h0 : takeWs1 (a :: (as ++ rest)) =
          if isWsChar a = true then some ((as ++ rest).dropWhile isWsChar) else none := rfl
      rw [h0, word_not_ws a haw]
      rfl

/-- Failure of the whole regex from the first two characters. -/
theorem tmFail_two (c d : Char) (h : ¬(c.toUpper = 'C' ∧ d.toUpper = 'R'))
    (X : List Char) : tryMatch (c :: d :: X) = none := by
  by_cases hc : c.toUpper = 'C'
  · have hd : ¬ d.toUpper = 'R' := fun hd => h ⟨hc, hd⟩
    have hm0 : matchLitCI "CREATE".data (c :: d :: X) =
        (if c.toUpper = 'C' then
          (if d.toUpper = 'R' then
            matchLitCI ('E' :: 'A' :: 'T' :: 'E' :: ([] : List Char)) X
          else none)
        else none) := rfl
    refine tryMatch_of_none _ ?_
    rw [hm0, if_pos hc, if_neg hd]
  · exact tryMatch_nonC c (d :: X) hc

/-- Failure of the whole regex from the first four characters. -/
theorem tmFail_four (c d e f : Char)
    (h : ¬(c.toUpper = 'C' ∧ d.toUpper = 'R' ∧ e.toUpper = 'E' ∧ f.toUpper = 'A'))
    (X : List Char) : tryMatch (c :: d :: e :: f :: X) = none := by
  by_cases hc : c.toUpper = 'C'
  · by_cases hd : d.toUpper = 'R'
    · have hm0 : matchLitCI "CREATE".data (c :: d :: e :: f :: X) =
          (if c.toUpper = 'C' then
            (if d.toUpper = 'R' then
              (if e.toUpper = 'E' then
                (if f.toUpper = 'A' then
                  matchLitCI ('T' :: 'E' :: ([] : List Char)) X
                else none)
              else none)
            else none)
          else none) := rfl
      refine tryMatch_of_none _ ?_
      rw [hm0, if_pos hc, if_pos hd]
      by_cases he : e.toUpper = 'E'
      · rw [if_pos he, if_neg (fun hf => h ⟨hc, hd, he, hf⟩)]
      · rw [if_neg he]
    · exact tmFail_two c d (fun hcd => hd hcd.2) (e :: f :: X)
  · exact tryMatch_nonC c _ hc

/-- The generated header itself fails the regex: after CREATE, whitespace,
TABLE, whitespace, the captured word is IF and the next non-space character
is N, not the required opening parenthesis. -/
theorem tmFail_header (X : List Char) :
    tryMatch ('C' :: 'R' :: 'E' :: 'A' :: 'T' :: 'E' :: ' ' :: 'T' :: 'A' :: 'B' ::
      'L' :: 'E' :: ' ' :: 'I' :: 'F' :: ' ' :: 'N' :: X) = none := rfl

/-- Failure of the TABLE literal from the first two characters. -/
theorem matchTABLE_two (a b : Char) (h : ¬(a.toUpper = 'T' ∧ b.toUpper = 'A'))
    (X : List Char) : matchLitCI "TABLE".data (a :: b :: X) = none := by
  have hm0 : matchLitCI "TABLE".data (a :: b :: X) =
      (if a.toUpper = 'T' then
        (if b.toUpper = 'A' then matchLitCI ('B' :: 'L' :: 'E' :: ([] : List Char)) X
        else none)
      else none) := rfl
  rw [hm0]
  by_cases ha : a.toUpper = 'T'
  · rw [if_pos ha, if_neg (fun hb => h ⟨ha, hb⟩)]
  · rw [if_neg ha]

/-- A self-blocking chunk is safe ahead of any continuation. -/
theorem selfBlock_safe : ∀ (A : List Char), selfBlockB A = true →
    ∀ (B : List Char), SafeChunk A B := by
  intro A
  induction A using selfBlockB.induct with
  | case1 =>
    intro _ B i hi
    exact absurd hi (by simp)
  | case2 c =>
    intro h B i hi
    simp only [selfBlockB, Bool.not_eq_true', decide_eq_false_iff_not] at h
    simp only [List.length_cons, List.length_nil] at hi
    interval_cases i
    exact tryMatch_nonC c B h
  | case3 c d ih =>
    intro h B i hi
    simp only [selfBlockB, Bool.and_eq_true, Bool.or_eq_true, Bool.not_eq_true',
      decide_eq_false_iff_not] at h
    simp only [List.length_cons, List.length_nil] at hi
    interval_cases i
    · exact tmFail_two c d (fun ⟨h1, h2⟩ => h.1.elim (fun hh => hh h1) (fun hh => hh h2)) B
    · have h2 : selfBlockB [d] = true := by
        simp only [selfBlockB, Bool.not_eq_true', decide_eq_false_iff_not]
        exact h.2
      exact ih h2 B 0 (by simp)
  | case4 c d e ih =>
    intro h B i hi
    simp only [selfBlockB, Bool.and_eq_true, Bool.or_eq_true, Bool.not_eq_true',
      decide_eq_false_iff_not] at h
    simp only [List.length_cons, List.length_nil] at hi
    interval_cases i
    · exact tmFail_two c d (fun ⟨h1, h2⟩ => h.1.elim (fun hh => hh h1) (fun hh => hh h2)) (e :: B)
    · have h2 : selfBlockB [d, e] = true := by
        simp only [selfBlockB, Bool.and_eq_true, Bool.or_eq_true, Bool.not_eq_true',
          decide_eq_false_iff_not]
        exact h.2
      exact ih h2 B 0 (by simp)
    · have h2 : selfBlockB [d, e] = true := by
        simp only [selfBlockB, Bool.and_eq_true, Bool.or_eq_true, Bool.not_eq_true',
          decide_eq_false_iff_not]
        exact h.2
      exact ih h2 B 1 (by simp)
  | case5 c d e f rest ih =>
    intro h B i hi
    have hh : selfBlockB (c :: d :: e :: f :: rest) = true := h
    rw [show selfBlockB (c :: d :: e :: f :: rest) =
      ((!(decide (c.toUpper = 'C')) || !(decide (d.toUpper = 'R')) ||
        !(decide (e.toUpper = 'E')) || !(decide (f.toUpper = 'A'))) &&
        selfBlockB (d :: e :: f :: rest)) from rfl] at hh
    have hsplit : (!(decide (c.toUpper = 'C')) || !(decide (d.toUpper = 'R')) ||
        !(decide (e.toUpper = 'E')) || !(decide (f.toUpper = 'A'))) = true ∧
        selfBlockB (d :: e :: f :: rest) = true := by
      constructor
      · exact Bool.and_elim_left hh
      · exact Bool.and_elim_right hh
    cases i with
    | zero =>
      show tryMatch (c :: d :: e :: f :: (rest ++ B)) = none
      apply tmFail_four c d e f
      intro ⟨h1, h2, h3, h4⟩
      have h5 := hsplit.1
      simp only [Bool.or_eq_true, Bool.not_eq_true', decide_eq_false_iff_not] at h5
      rcases h5 with ((hh5 | hh5) | hh5) | hh5
      exacts [hh5 h1, hh5 h2, hh5 h3, hh5 h4]
    | succ j =>
      show tryMatch ((d :: e :: f :: rest).drop j ++ B) = none
      exact ih hsplit.2 B j (Nat.lt_of_succ_lt_succ hi)

/-! ## C1 helper lemmas: whitespace collapse by chunks, scanner safety -/

/-- One step of the whitespace collapse, as an equation. -/
theorem collapse_cons_eq (inRun : Bool) (c : Char) (rest : List Char) :
    collapseWsAux inRun (c :: rest) =
      if isWsChar c = true then
        (if inRun = true then collapseWsAux true rest
         else ' ' :: collapseWsAux true rest)
      else c :: collapseWsAux false rest := rfl

/-- Collapsing with pending-run state over an all-whitespace run followed by
non-whitespace behaves like restarting after the run. -/
theorem collapse_true_run : ∀ (u : List Char), (∀ c ∈ u, isWsChar c = true) →
    ∀ (b : List Char), headNonWsB b = true →
      collapseWsAux true (u ++ b) = collapseWsAux false b := by
  intro u
  induction u with
  | nil =>
    intro _ b hb
    cases b with
    | nil => rfl
    | cons d ds =>
      have hd : ¬ isWsChar d = true := by
        have hh : headNonWsB (d :: ds) = !isWsChar d := rfl
        rw [hh, Bool.not_eq_true'] at hb
        simp [hb]
      show collapseWsAux true (d :: ds) = collapseWsAux false (d :: ds)
      rw [collapse_cons_eq true d ds, collapse_cons_eq false d ds, if_neg hd, if_neg hd]
  | cons c u2 ih =>
    intro hu b hb
    have hc : isWsChar c = true := hu c (List.mem_cons_self c u2)
    show collapseWsAux true (c :: (u2 ++ b)) = collapseWsAux false b
    rw [collapse_cons_eq, if_pos hc, if_pos rfl]
    exact ih (fun x hx => hu x (List.mem_cons_of_mem c hx)) b hb

/-- A nonempty whitespace run followed by non-whitespace collapses to one
space. -/
theorem collapse_run (u : List Char) (hne : u ≠ [])
    (hu : ∀ c ∈ u, isWsChar c = true) (b : List Char) (hb : headNonWsB b = true) :
    collapseWsAux false (u ++ b) = ' ' :: collapseWsAux false b := by
  cases u with
  | nil => exact absurd rfl hne
  | cons c u2 =>
    have hc : isWsChar c = true := hu c (List.mem_cons_self c u2)
    show collapseWsAux false (c :: (u2 ++ b)) = ' ' :: collapseWsAux false b
    rw [collapse_cons_eq, if_pos hc, if_neg Bool.false_ne_true]
    rw [collapse_true_run u2 (fun x hx => hu x (List.mem_cons_of_mem c hx)) b hb]

/-- A well-formed chunk passes through the collapse unchanged, provided it
does not end in a space or the continuation starts with a non-space. -/
theorem collapse_chunk : ∀ (l : List Char), chunkOkB l = true →
    ∀ (b : List Char), endsNonWsB l = true ∨ headNonWsB b = true →
      collapseWsAux false (l ++ b) = l ++ collapseWsAux false b := by
  intro l
  induction l using chunkOkB.induct with
  | case1 => intro _ b _; rfl
  | case2 c =>
    intro h b hor
    simp only [chunkOkB, Bool.and_eq_true, Bool.or_eq_true, Bool.not_eq_true',
      decide_eq_true_eq] at h
    show collapseWsAux false (c :: b) = c :: collapseWsAux false b
    by_cases hc : isWsChar c = true
    · have hsp : c = ' ' := by
        rcases h.2 with h2 | h2
        · rw [h2] at hc; exact absurd hc (by decide)
        · exact h2
      have hb : headNonWsB b = true := by
        rcases hor with h1 | h1
        · have he : endsNonWsB [c] = !isWsChar c := rfl
          rw [he, hc] at h1
          exact absurd h1 (by decide)
        · exact h1
      subst hsp
      rw [collapse_cons_eq, if_pos hc, if_neg Bool.false_ne_true]
      rw [show collapseWsAux true b = collapseWsAux true ([] ++ b) from rfl,
        collapse_true_run [] (by simp) b hb]
    · rw [collapse_cons_eq, if_neg hc]
  | case3 c d rest ih =>
    intro h b hor
    have hh : chunkOkB (c :: d :: rest) = true := h
    rw [show chunkOkB (c :: d :: rest) =
      (decide (¬ c = '-') && (!isWsChar c || (decide (c = ' ') && !isWsChar d)) &&
        chunkOkB (d :: rest)) from rfl, Bool.and_eq_true, Bool.and_eq_true] at hh
    obtain ⟨⟨_, hcnd⟩, h2⟩ := hh
    have hor2 : endsNonWsB (d :: rest) = true ∨ headNonWsB b = true := by
      rcases hor with ho | ho
      · left
        rwa [show endsNonWsB (c :: d :: rest) = endsNonWsB (d :: rest) from rfl] at ho
      · right; exact ho
    show collapseWsAux false (c :: ((d :: rest) ++ b)) =
      c :: ((d :: rest) ++ collapseWsAux false b)
    by_cases hc : isWsChar c = true
    · have hcd : (decide (c = ' ') && !isWsChar d) = true := by
        rcases Bool.or_eq_true_iff.mp hcnd with hx | hx
        · rw [Bool.not_eq_true'] at hx
          rw [hx] at hc
          exact absurd hc (by decide)
        · exact hx
      rw [Bool.and_eq_true] at hcd
      have hsp : c = ' ' := of_decide_eq_true hcd.1
      have hdnw : ¬ isWsChar d = true := by
        have := hcd.2
        rw [Bool.not_eq_true'] at this
        simp [this]
      rw [collapse_cons_eq, if_pos hc, if_neg Bool.false_ne_true]
      have hstep : collapseWsAux true ((d :: rest) ++ b) =
          collapseWsAux false ((d :: rest) ++ b) := by
        show collapseWsAux true (d :: (rest ++ b)) =
          collapseWsAux false (d :: (rest ++ b))
        rw [collapse_cons_eq true d (rest ++ b), collapse_cons_eq false d (rest ++ b),
          if_neg hdnw, if_neg hdnw]
      rw [hstep, ih h2 b hor2, hsp]
    · rw [collapse_cons_eq, if_neg hc, ih h2 b hor2]

/-- Well-formed chunks contain no dash. -/
theorem chunkOk_noDash : ∀ (l : List Char), chunkOkB l = true →
    ∀ c ∈ l, ¬ c = '-' := by
  intro l
  induction l using chunkOkB.induct with
  | case1 => intro _ c hc; exact absurd hc (by simp)
  | case2 c =>
    intro h x hx
    simp only [chunkOkB, Bool.and_eq_true, decide_eq_true_eq] at h
    rcases List.mem_singleton.mp hx with rfl
    exact h.1
  | case3 c d rest ih =>
    intro h x hx
    have hh : chunkOkB (c :: d :: rest) = true := h
    rw [show chunkOkB (c :: d :: rest) =
      (decide (¬ c = '-') && (!isWsChar c || (decide (c = ' ') && !isWsChar d)) &&
        chunkOkB (d :: rest)) from rfl, Bool.and_eq_true, Bool.and_eq_true] at hh
    rcases List.mem_cons.mp hx with rfl | hx2
    · exact of_decide_eq_true hh.1.1
    · exact ih hh.2 x hx2

/-- A word run is a well-formed chunk. -/
theorem chunkOk_word : ∀ (w : List Char), (∀ c ∈ w, isWordChar c = true) →
    chunkOkB w = true := by
  intro w
  induction w using chunkOkB.induct with
  | case1 => intro _; rfl
  | case2 c =>
    intro h
    have hc := h c (List.mem_singleton.mpr rfl)
    simp only [chunkOkB, Bool.and_eq_true, Bool.or_eq_true, Bool.not_eq_true',
      decide_eq_true_eq]
    exact ⟨word_ne_dash c hc, Or.inl (word_not_ws c hc)⟩
  | case3 c d rest ih =>
    intro h
    have hc := h c (List.mem_cons_self c (d :: rest))
    rw [show chunkOkB (c :: d :: rest) =
      (decide (¬ c = '-') && (!isWsChar c || (decide (c = ' ') && !isWsChar d)) &&
        chunkOkB (d :: rest)) from rfl]
    rw [ih (fun x hx => h x (List.mem_cons_of_mem c hx))]
    rw [decide_eq_true (word_ne_dash c hc), word_not_ws c hc]
    rfl

/-- A word run does not end in whitespace. -/
theorem endsNonWs_word : ∀ (w : List Char), (∀ c ∈ w, isWordChar c = true) →
    endsNonWsB w = true := by
  intro w
  induction w using endsNonWsB.induct with
  | case1 => intro _; rfl
  | case2 c =>
    intro h
    have hc := h c (List.mem_singleton.mpr rfl)
    show (!isWsChar c) = true
    rw [word_not_ws c hc]
    rfl
  | case3 c d rest ih =>
    intro h
    show endsNonWsB (d :: rest) = true
    exact ih (fun x hx => h x (List.mem_cons_of_mem c hx))

/-- Concatenation of well-formed chunks is well-formed when the seam is
protected. -/
theorem chunkOkB_append : ∀ (a : List Char), chunkOkB a = true →
    ∀ (b : List Char), chunkOkB b = true →
      endsNonWsB a = true ∨ headNonWsB b = true →
      chunkOkB (a ++ b) = true := by
  intro a
  induction a using chunkOkB.induct with
  | case1 => intro _ b hb _; exact hb
  | case2 c =>
    intro h b hb hor
    simp only [chunkOkB, Bool.and_eq_true, Bool.or_eq_true, Bool.not_eq_true',
      decide_eq_true_eq] at h
    cases b with
    | nil => exact (by simpa [chunkOkB] using h)
    | cons d ds =>
      show chunkOkB (c :: d :: ds) = true
      rw [show chunkOkB (c :: d :: ds) =
        (decide (¬ c = '-') && (!isWsChar c || (decide (c = ' ') && !isWsChar d)) &&
          chunkOkB (d :: ds)) from rfl]
      rw [hb, decide_eq_true h.1]
      by_cases hc : isWsChar c = true
      · have hsp : c = ' ' := by
          rcases h.2 with h2 | h2
          · rw [h2] at hc; exact absurd hc (by decide)
          · exact h2
        have hd : isWsChar d = false := by
          rcases hor with ho | ho
          · have he : endsNonWsB [c] = !isWsChar c := rfl
            rw [he, hc] at ho
            exact absurd ho (by decide)
          · have hh : headNonWsB (d :: ds) = !isWsChar d := rfl
            rw [hh, Bool.not_eq_true'] at ho
            exact ho
        rw [hc, hd, decide_eq_true hsp]
        rfl
      · rw [Bool.not_eq_true] at hc
        rw [hc]
        rfl
  | case3 c d rest ih =>
    intro h b hb hor
    have hh : chunkOkB (c :: d :: rest) = true := h
    rw [show chunkOkB (c :: d :: rest) =
      (decide (¬ c = '-') && (!isWsChar c || (decide (c = ' ') && !isWsChar d)) &&
        chunkOkB (d :: rest)) from rfl, Bool.and_eq_true] at hh
    have hrec := ih hh.2 b hb (by
      rcases hor with ho | ho
      · left
        rwa [show endsNonWsB (c :: d :: rest) = endsNonWsB (d :: rest) from rfl] at ho
      · right; exact ho)
    show chunkOkB (c :: d :: (rest ++ b)) = true
    rw [show chunkOkB (c :: d :: (rest ++ b)) =
      (decide (¬ c = '-') && (!isWsChar c || (decide (c = ' ') && !isWsChar d)) &&
        chunkOkB (d :: (rest ++ b))) from rfl]
    rw [show (d :: (rest ++ b)) = ((d :: rest) ++ b) from rfl, hrec, hh.1]
    rfl

/-- Appending a nonempty chunk that does not end in whitespace keeps that
property. -/
theorem endsNonWs_append : ∀ (a b : List Char), b ≠ [] → endsNonWsB b = true →
    endsNonWsB (a ++ b) = true := by
  intro a
  induction a with
  | nil => intro b _ hb; exact hb
  | cons c a2 ih =>
    intro b hbne hb
    have hrec := ih b hbne hb
    cases ha2 : a2 ++ b with
    | nil =>
      rcases List.append_eq_nil.mp ha2 with ⟨_, rfl⟩
      exact absurd rfl hbne
    | cons e es =>
      show endsNonWsB (c :: (a2 ++ b)) = true
      rw [ha2]
      rw [show endsNonWsB (c :: e :: es) = endsNonWsB (e :: es) from rfl]
      rw [ha2] at hrec
      exact hrec

/-- Safety over an append: positions in the first part, then the second. -/
theorem safeChunk_seq (A B X : List Char) (hA : SafeChunk A (B ++ X))
    (hB : SafeChunk B X) : SafeChunk (A ++ B) X := by
  intro i hi
  rw [List.drop_append_eq_append_drop]
  by_cases hiA : i < A.length
  · rw [Nat.sub_eq_zero_of_le (Nat.le_of_lt hiA), List.drop_zero, List.append_assoc]
    exact hA i hiA
  · rw [List.drop_eq_nil_of_le (Nat.le_of_not_lt hiA), List.nil_append]
    apply hB
    rw [List.length_append] at hi
    omega

/-- A safe chunk ahead of a safe remainder gives a safe whole. -/
theorem safe_append (A B : List Char) (hA : SafeChunk A B) (hB : SafeL B) :
    SafeL (A ++ B) := by
  intro i
  rw [List.drop_append_eq_append_drop]
  by_cases hiA : i < A.length
  · rw [Nat.sub_eq_zero_of_le (Nat.le_of_lt hiA), List.drop_zero]
    exact hA i hiA
  · rw [List.drop_eq_nil_of_le (Nat.le_of_not_lt hiA), List.nil_append]
    exact hB (i - A.length)

/-- The empty input is safe. -/
theorem safeL_nil : SafeL [] := by
  intro i
  rw [List.drop_nil]
  rfl

/-- A word run whose continuation blocks the regex is safe. -/
theorem safeChunk_word (w rest : List Char) (hw : ∀ c ∈ w, isWordChar c = true)
    (hrw : headNonWordB rest = true) (hrb : RestBlocks rest) : SafeChunk w rest := by
  intro i _
  exact tryMatch_word_run (w.drop i) rest
    (fun c hc => hw c ((List.drop_sublist i w).subset hc)) hrw hrb

/-- If every suffix fails the regex, the scanner finds nothing. -/
theorem scan_of_safe : ∀ (fuel : Nat) (l : List Char), SafeL l →
    scanTables fuel l = [] := by
  intro fuel
  induction fuel with
  | zero => intro l _; rfl
  | succ n ih =>
    intro l hs
    have h0 : tryMatch l = none := by
      have := hs 0
      rwa [List.drop_zero] at this
    cases l with
    | nil => rfl
    | cons c t =>
      have heq : scanTables (n + 1) (c :: t) =
          match tryMatch (c :: t) with
          | some nbr => (nbr.1, nbr.2.1) :: scanTables n nbr.2.2
          | none => scanTables n t := rfl
      rw [heq, h0]
      apply ih
      intro i
      have := hs (i + 1)
      rwa [show (c :: t).drop (i + 1) = t.drop i from rfl] at this

/-! ## C1 helper lemmas: facts about one rendered column core -/

/-- Unpacking a well-formed identifier. -/
theorem wordOk_facts (s : String) (h : wordOkB s = true) :
    s.data ≠ [] ∧ (∀ c ∈ s.data, isWordChar c = true) := by
  rw [wordOkB, Bool.and_eq_true] at h
  constructor
  · intro he
    rw [he] at h
    exact absurd h.1 (by decide)
  · intro c hc
    exact List.all_eq_true.mp h.2 c hc

/-- A nonempty word run starts with a non-whitespace character. -/
theorem headNonWs_of_word (w : List Char) (hne : w ≠ [])
    (hw : ∀ c ∈ w, isWordChar c = true) : headNonWsB w = true := by
  cases w with
  | nil => exact absurd rfl hne
  | cons c cs =>
    show (!isWsChar c) = true
    rw [word_not_ws c (hw c (List.mem_cons_self c cs))]
    rfl

/-- The head of an append is the head of its nonempty first part. -/
theorem headNonWs_append_left (a b : List Char) (hne : a ≠ [])
    (h : headNonWsB a = true) : headNonWsB (a ++ b) = true := by
  cases a with
  | nil => exact absurd rfl hne
  | cons c cs => exact h

/-- A space followed by a non-whitespace character that together with its
successor refutes TABLE blocks the regex continuation. -/
theorem restBlocks_space (a b : Char) (ha : isWsChar a = false)
    (hab : ¬(a.toUpper = 'T' ∧ b.toUpper = 'A')) (Y : List Char) :
    RestBlocks (' ' :: a :: b :: Y) := by
  right
  refine ⟨a :: b :: Y, ?_, matchTABLE_two a b hab Y⟩
  have h0 : takeWs1 (' ' :: a :: b :: Y) =
      if isWsChar ' ' = true then some ((a :: b :: Y).dropWhile isWsChar) else none := rfl
  rw [h0, if_pos (show isWsChar ' ' = true from rfl), List.dropWhile_cons,
    if_neg (by simp [ha])]

/-- The phrase facts of the core before any REFERENCES clause, for the three
dialects and the canonical types. -/
theorem coreNN_ok (provider : String) (f : DiagramField)
    (hp : provider = "postgresql" ∨ provider = "mysql" ∨ provider = "sqlite")
    (ht : typeOkB f.type = true) :
    fd1OkB (coreNN provider f).data = true := by
  have ht7 : f.type = "int8" ∨ f.type = "text" ∨ f.type = "boolean" ∨
      f.type = "timestamp" ∨ f.type = "numeric" ∨ f.type = "uuid" ∨
      f.type = "json" := by
    simp only [typeOkB, Bool.or_eq_true, decide_eq_true_eq] at ht
    tauto
  cases hpk : f.isPrimaryKey <;> cases hnn : f.nullable <;>
    rcases hp with rfl | rfl | rfl <;>
    rcases ht7 with h7 | h7 | h7 | h7 | h7 | h7 | h7 <;>
    simp only [coreNN, coreBase, h7, hpk, hnn] <;> decide

/-- Unpacking the phrase facts. -/
theorem fd1_facts (l : List Char) (h : fd1OkB l = true) :
    selfBlockB l = true ∧ chunkOkB l = true ∧ endsNonWsB l = true ∧
    ∃ a b Y, l = ' ' :: a :: b :: Y ∧ isWsChar a = false ∧
      ¬(a.toUpper = 'T' ∧ b.toUpper = 'A') := by
  match l with
  | [] =>
    rw [show fd1OkB [] = false from rfl] at h
    exact absurd h Bool.false_ne_true
  | [c] =>
    rw [show fd1OkB [c] = false from rfl] at h
    exact absurd h Bool.false_ne_true
  | [c, a] =>
    rw [show fd1OkB [c, a] = false from rfl] at h
    exact absurd h Bool.false_ne_true
  | c :: a :: b :: Y =>
    have hh : (selfBlockB (c :: a :: b :: Y) && chunkOkB (c :: a :: b :: Y) &&
        endsNonWsB (c :: a :: b :: Y) && decide (c = ' ') && !isWsChar a &&
        !(decide (a.toUpper = 'T') && decide (b.toUpper = 'A'))) = true := h
    rw [Bool.and_eq_true, Bool.and_eq_true, Bool.and_eq_true, Bool.and_eq_true,
      Bool.and_eq_true] at hh
    obtain ⟨⟨⟨⟨⟨h1, h2⟩, h3⟩, h4⟩, h5⟩, h6⟩ := hh
    have hc : c = ' ' := of_decide_eq_true h4
    subst hc
    refine ⟨h1, h2, h3, a, b, Y, rfl, ?_, ?_⟩
    · rw [Bool.not_eq_true'] at h5
      exact h5
    · intro ⟨hta, hba⟩
      rw [decide_eq_true hta, decide_eq_true hba] at h6
      exact absurd h6 (by decide)

/-- The core restated through the parallel definitions. -/
theorem exportFieldCore_eq (dd : DiagramData) (provider tn : String)
    (f : DiagramField) :
    exportFieldCore dd provider tn f =
      match dd.relationships.find?
          (fun rel => rel.fromTable = tn && rel.fromField = f.name) with
      | some r => coreNN provider f ++ " " ++ refClause provider r
      | none => coreNN provider f := rfl

/-- The REFERENCES constraint template is shared by the three dialects. -/
theorem refClause_eq (provider : String)
    (hp : provider = "postgresql" ∨ provider = "mysql" ∨ provider = "sqlite")
    (r : DiagramRelationship) :
    refClause provider r = "REFERENCES " ++ r.toTable ++ "(" ++ r.toField ++ ")" := by
  rcases hp with rfl | rfl | rfl <;> rfl

/-- Chunk facts of the rendered REFERENCES tail over abstract identifiers. -/
theorem refTail_facts (s t : List Char) (hsne : s ≠ [])
    (hsw : ∀ c ∈ s, isWordChar c = true) (htne : t ≠ [])
    (htw : ∀ c ∈ t, isWordChar c = true) :
    chunkOkB (' ' :: ("REFERENCES ".data ++ (s ++ ('(' :: (t ++ [')']))))) = true ∧
    endsNonWsB (' ' :: ("REFERENCES ".data ++ (s ++ ('(' :: (t ++ [')']))))) = true ∧
    ∀ B, SafeChunk (' ' :: ("REFERENCES ".data ++ (s ++ ('(' :: (t ++ [')']))))) B := by
  have ck45 : chunkOkB (t ++ [')']) = true :=
    chunkOkB_append t (chunkOk_word t htw) [')'] (by decide)
      (Or.inl (endsNonWs_word t htw))
  have ck345 : chunkOkB ('(' :: (t ++ [')'])) = true :=
    chunkOkB_append ['('] (by decide) (t ++ [')']) ck45 (Or.inl (by decide))
  have ck2345 : chunkOkB (s ++ ('(' :: (t ++ [')']))) = true :=
    chunkOkB_append s (chunkOk_word s hsw) ('(' :: (t ++ [')'])) ck345
      (Or.inl (endsNonWs_word s hsw))
  have hshead : headNonWsB (s ++ ('(' :: (t ++ [')']))) = true :=
    headNonWs_append_left s _ hsne (headNonWs_of_word s hsne hsw)
  have ck : chunkOkB ((' ' :: ("REFERENCES ".data : List Char)) ++
      (s ++ ('(' :: (t ++ [')'])))) = true :=
    chunkOkB_append (' ' :: "REFERENCES ".data) (by decide) _ ck2345 (Or.inr hshead)
  have he45 : endsNonWsB (t ++ [')']) = true :=
    endsNonWs_append t [')'] (by simp) (by decide)
  have he345 : endsNonWsB ('(' :: (t ++ [')'])) = true :=
    endsNonWs_append ['('] (t ++ [')']) (by simp) he45
  have he2345 : endsNonWsB (s ++ ('(' :: (t ++ [')']))) = true :=
    endsNonWs_append s _ (by simp) he345
  have he : endsNonWsB ((' ' :: ("REFERENCES ".data : List Char)) ++
      (s ++ ('(' :: (t ++ [')'])))) = true :=
    endsNonWs_append _ _ (fun hx => hsne (List.append_eq_nil.mp hx).1) he2345
  refine ⟨ck, he, ?_⟩
  intro B
  have sc5 : SafeChunk [')'] B := selfBlock_safe [')'] (by decide) B
  have sc45 : SafeChunk (t ++ [')']) B :=
    safeChunk_seq t [')'] B (safeChunk_word t ([')'] ++ B) htw rfl (Or.inl rfl)) sc5
  have sc345 : SafeChunk ('(' :: (t ++ [')'])) B :=
    safeChunk_seq ['('] (t ++ [')']) B (selfBlock_safe ['('] (by decide) _) sc45
  have sc2345 : SafeChunk (s ++ ('(' :: (t ++ [')']))) B :=
    safeChunk_seq s ('(' :: (t ++ [')'])) B
      (safeChunk_word s (('(' :: (t ++ [')'])) ++ B) hsw rfl (Or.inl rfl)) sc345
  exact safeChunk_seq (' ' :: "REFERENCES ".data) (s ++ ('(' :: (t ++ [')']))) B
    (selfBlock_safe (' ' :: "REFERENCES ".data) (by decide) _) sc2345

/-- All facts needed of a rendered column core: it is a collapse-invariant
chunk, ends in non-whitespace, is safe ahead of any continuation, blocks the
regex after a word run, and starts with a space. -/
theorem core_facts (dd : DiagramData) (provider tn : String) (f : DiagramField)
    (hp : provider = "postgresql" ∨ provider = "mysql" ∨ provider = "sqlite")
    (ht : typeOkB f.type = true)
    (hrels : ∀ r ∈ dd.relationships, relOkB r = true) :
    chunkOkB (exportFieldCore dd provider tn f).data = true ∧
    endsNonWsB (exportFieldCore dd provider tn f).data = true ∧
    (∀ B, SafeChunk (exportFieldCore dd provider tn f).data B) ∧
    (∀ B, RestBlocks ((exportFieldCore dd provider tn f).data ++ B)) ∧
    (∃ Y, (exportFieldCore dd provider tn f).data = ' ' :: Y) := by
  obtain ⟨hsb, hck, hend, a, b, Y, hshape, hanw, hnta⟩ :=
    fd1_facts _ (coreNN_ok provider f hp ht)
  cases hfind : dd.relationships.find?
      (fun rel => rel.fromTable = tn && rel.fromField = f.name) with
  | none =>
    have hL : exportFieldCore dd provider tn f = coreNN provider f := by
      rw [exportFieldCore_eq, hfind]
    rw [hL]
    refine ⟨hck, hend, ?_, ?_, ⟨a :: b :: Y, hshape⟩⟩
    · intro B
      exact selfBlock_safe _ hsb B
    · intro B
      rw [hshape]
      show RestBlocks (' ' :: a :: b :: (Y ++ B))
      exact restBlocks_space a b hanw hnta (Y ++ B)
  | some r =>
    have hL : exportFieldCore dd provider tn f =
        coreNN provider f ++ " " ++ refClause provider r := by
      rw [exportFieldCore_eq, hfind]
    have hr := wordOk_facts r.toTable
      (Bool.and_elim_left (by
        have := hrels r (List.mem_of_find?_eq_some hfind)
        rwa [relOkB] at this))
    have hr2 := wordOk_facts r.toField
      (Bool.and_elim_right (by
        have := hrels r (List.mem_of_find?_eq_some hfind)
        rwa [relOkB] at this))
    have hflat : (coreNN provider f ++ " " ++ refClause provider r).data =
        (coreNN provider f).data ++
          (' ' :: ("REFERENCES ".data ++
            (r.toTable.data ++ ('(' :: (r.toField.data ++ [')']))))) := by
      rw [show (coreNN provider f ++ " " ++ refClause provider r).data =
        ((coreNN provider f).data ++ [' ']) ++ (refClause provider r).data from rfl]
      rw [List.append_assoc]
      rw [refClause_eq provider hp r]
      rw [show ("REFERENCES " ++ r.toTable ++ "(" ++ r.toField ++ ")").data =
        ((("REFERENCES ".data ++ r.toTable.data) ++ ['(']) ++ r.toField.data) ++ [')']
        from rfl]
      simp only [List.append_assoc]
      rfl
    obtain ⟨hck2, hend2, hsafe2⟩ :=
      refTail_facts r.toTable.data r.toField.data hr.1 hr.2 hr2.1 hr2.2
    rw [hL, hflat]
    refine ⟨?_, ?_, ?_, ?_, ?_⟩
    · exact chunkOkB_append _ hck _ hck2 (Or.inl hend)
    · exact endsNonWs_append _ _ (by simp) hend2
    · intro B
      exact safeChunk_seq _ _ B (selfBlock_safe _ hsb _) (hsafe2 B)
    · intro B
      rw [hshape]
      exact restBlocks_space a b hanw hnta
        ((Y ++ (' ' :: ("REFERENCES ".data ++
          (r.toTable.data ++ ('(' :: (r.toField.data ++ [')'])))))) ++ B)
    · exact ⟨a :: b :: (Y ++ (' ' :: ("REFERENCES ".data ++
        (r.toTable.data ++ ('(' :: (r.toField.data ++ [')'])))))),
        by rw [hshape]; rfl⟩

/-! ## C1 helper lemmas: column lines and their join -/

/-- Literal expansions used to normalize generated-script character lists. -/
theorem dataIndent : ("    " : String).data = ' ' :: ' ' :: ' ' :: ' ' :: [] := rfl

theorem dataCommaNl : (",\n" : String).data = ',' :: '\n' :: [] := rfl

theorem dataParenNl : (" (\n" : String).data = ' ' :: '(' :: '\n' :: [] := rfl

theorem dataNlClose : ("\n);" : String).data = '\n' :: ')' :: ';' :: [] := rfl

theorem dataNlNl : ("\n\n" : String).data = '\n' :: '\n' :: [] := rfl

theorem dataParenSp : (" ( " : String).data = ' ' :: '(' :: ' ' :: [] := rfl

theorem dataCommaSp : (", " : String).data = ',' :: ' ' :: [] := rfl

theorem dataSpClose : (" );" : String).data = ' ' :: ')' :: ';' :: [] := rfl

theorem dataSp : (" " : String).data = ' ' :: [] := rfl

/-- `joinSep` on a list with at least two elements. -/
theorem joinSep_cons_ne (sep : String) (x : String) (L : List String) (h : L ≠ []) :
    joinSep sep (x :: L) = x ++ sep ++ joinSep sep L := by
  cases L with
  | nil => exact absurd rfl h
  | cons y l => rfl

/-- `joinSep` on a singleton. -/
theorem joinSep_one (sep x : String) : joinSep sep [x] = x := rfl

/-- Pointwise facts distribute over list append. -/
theorem forall_mem_append {Q : Char → Prop} {a b : List Char}
    (ha : ∀ c ∈ a, Q c) (hb : ∀ c ∈ b, Q c) : ∀ c ∈ a ++ b, Q c :=
  fun c hc => (List.mem_append.mp hc).elim (ha c) (hb c)

/-- Pointwise facts distribute over `joinSep`. -/
theorem joinSep_forall (Q : Char → Prop) (sep : String)
    (hsep : ∀ c ∈ sep.data, Q c) :
    ∀ (L : List String), (∀ s ∈ L, ∀ c ∈ s.data, Q c) →
      ∀ c ∈ (joinSep sep L).data, Q c := by
  intro L
  induction L with
  | nil =>
    intro _ c hc
    exact absurd hc (by rw [show (joinSep sep [] : String) = "" from rfl]; simp)
  | cons x L2 ih =>
    intro hL c hc
    cases L2 with
    | nil => exact hL x (List.mem_singleton.mpr rfl) c hc
    | cons y l =>
      have hc2 : c ∈ (x.data ++ sep.data) ++ (joinSep sep (y :: l)).data := hc
      rcases List.mem_append.mp hc2 with h1 | h1
      · rcases List.mem_append.mp h1 with h2 | h2
        · exact hL x (List.mem_cons_self x (y :: l)) c h2
        · exact hsep c h2
      · exact ih (fun s hs => hL s (List.mem_cons_of_mem x hs)) c h1

/-- Unpacking a well-formed field. -/
theorem fieldOk_facts (f : DiagramField) (h : fieldOkB f = true) :
    wordOkB f.name = true ∧ typeOkB f.type = true := by
  rw [fieldOkB, Bool.and_eq_true] at h
  exact h

/-- Unpacking a well-formed table. -/
theorem tableOk_facts (t : DiagramTable) (h : tableOkB t = true) :
    wordOkB t.name = true ∧ t.fields ≠ [] ∧ ∀ f ∈ t.fields, fieldOkB f = true := by
  rw [tableOkB, Bool.and_eq_true, Bool.and_eq_true] at h
  refine ⟨h.1.1, ?_, ?_⟩
  · intro he
    rw [he] at h
    exact absurd h.1.2 (by decide)
  · intro f hf
    exact List.all_eq_true.mp h.2 f hf

/-- Unpacking a well-formed diagram. -/
theorem ddOk_facts (dd : DiagramData) (h : ddOkB dd = true) :
    (∀ t ∈ dd.tables, tableOkB t = true) ∧
    (∀ r ∈ dd.relationships, relOkB r = true) := by
  rw [ddOkB, Bool.and_eq_true] at h
  exact ⟨fun t ht => List.all_eq_true.mp h.1 t ht,
    fun r hr => List.all_eq_true.mp h.2 r hr⟩

/-- All facts needed of one collapsed column line. -/
theorem fieldLine_facts (dd : DiagramData) (provider tn : String) (f : DiagramField)
    (hp : provider = "postgresql" ∨ provider = "mysql" ∨ provider = "sqlite")
    (hf : fieldOkB f = true)
    (hrels : ∀ r ∈ dd.relationships, relOkB r = true) :
    chunkOkB (cleanFieldLine dd provider tn f).data = true ∧
    endsNonWsB (cleanFieldLine dd provider tn f).data = true ∧
    headNonWsB (cleanFieldLine dd provider tn f).data = true ∧
    (cleanFieldLine dd provider tn f).data ≠ [] ∧
    (∀ B, SafeChunk (cleanFieldLine dd provider tn f).data B) := by
  obtain ⟨hwn, htp⟩ := fieldOk_facts f hf
  obtain ⟨hne, hword⟩ := wordOk_facts f.name hwn
  obtain ⟨hck, hend, hsafe, hrb, Y, hsp⟩ := core_facts dd provider tn f hp htp hrels
  have hflat : (cleanFieldLine dd provider tn f).data =
      f.name.data ++ (exportFieldCore dd provider tn f).data := rfl
  rw [hflat]
  refine ⟨?_, ?_, ?_, ?_, ?_⟩
  · exact chunkOkB_append _ (chunkOk_word _ hword) _ hck (Or.inl (endsNonWs_word _ hword))
  · exact endsNonWs_append _ _ (by rw [hsp]; simp) hend
  · exact headNonWs_append_left _ _ hne (headNonWs_of_word _ hne hword)
  · intro hh
    exact hne (List.append_eq_nil.mp hh).1
  · intro B
    refine safeChunk_seq _ _ B ?_ (hsafe B)
    refine safeChunk_word f.name.data _ hword ?_ (hrb B)
    rw [hsp]
    rfl

/-- The collapsed column-line join is safe ahead of any continuation. -/
theorem fieldsJoin_safe (dd : DiagramData) (provider tn : String)
    (hp : provider = "postgresql" ∨ provider = "mysql" ∨ provider = "sqlite")
    (hrels : ∀ r ∈ dd.relationships, relOkB r = true) :
    ∀ (fs : List DiagramField), (∀ f ∈ fs, fieldOkB f = true) →
      ∀ B, SafeChunk (joinSep ", " (fs.map (cleanFieldLine dd provider tn))).data B := by
  intro fs
  induction fs with
  | nil =>
    intro _ B i hi
    exact absurd hi (by simp [joinSep])
  | cons f fs2 ih =>
    intro hok B
    cases fs2 with
    | nil => exact (fieldLine_facts dd provider tn f hp
        (hok f (List.mem_singleton.mpr rfl)) hrels).2.2.2.2 B
    | cons g gs =>
      rw [List.map_cons, joinSep_cons_ne _ _ _ (by simp)]
      have hd : ((cleanFieldLine dd provider tn f ++ ", " ++
          joinSep ", " (List.map (cleanFieldLine dd provider tn) (g :: gs))).data) =
          ((cleanFieldLine dd provider tn f).data ++ (',' :: ' ' :: [])) ++
            (joinSep ", " (List.map (cleanFieldLine dd provider tn) (g :: gs))).data := rfl
      rw [hd, List.append_assoc]
      refine safeChunk_seq _ _ B ?_ ?_
      · have hlf := (fieldLine_facts dd provider tn f hp
          (hok f (List.mem_cons_self f (g :: gs))) hrels).2.2.2.2
        exact hlf _
      · refine safeChunk_seq _ _ B (selfBlock_safe _ (by decide) _) ?_
        exact ih (fun x hx => hok x (List.mem_cons_of_mem f hx)) B

/-- The raw column-line join collapses to the clean join. -/
theorem fieldsJoin_collapse (dd : DiagramData) (provider tn : String)
    (hp : provider = "postgresql" ∨ provider = "mysql" ∨ provider = "sqlite")
    (hrels : ∀ r ∈ dd.relationships, relOkB r = true) :
    ∀ (fs : List DiagramField), fs ≠ [] → (∀ f ∈ fs, fieldOkB f = true) →
      ∀ (B : List Char), headNonWsB B = true →
        collapseWsAux false ('\n' ::
          ((joinSep ",\n" (fs.map (exportFieldDef dd provider tn))).data ++
            ('\n' :: B))) =
        ' ' :: ((joinSep ", " (fs.map (cleanFieldLine dd provider tn))).data ++
          (' ' :: collapseWsAux false B)) := by
  intro fs
  induction fs with
  | nil => intro h; exact absurd rfl h
  | cons f fs2 ih =>
    intro _ hok B hB
    obtain ⟨hck, hend, hhead, hne, _⟩ := fieldLine_facts dd provider tn f hp
      (hok f (List.mem_cons_self f fs2)) hrels
    cases fs2 with
    | nil =>
      have e1 : collapseWsAux false (('\n' :: []) ++ B) =
          ' ' :: collapseWsAux false B :=
        collapse_run ('\n' :: []) (by simp) (by decide) B hB
      have e2 : collapseWsAux false ((cleanFieldLine dd provider tn f).data ++
          (('\n' :: []) ++ B)) =
          (cleanFieldLine dd provider tn f).data ++ (' ' :: collapseWsAux false B) := by
        rw [collapse_chunk _ hck _ (Or.inl hend), e1]
      have e3 : collapseWsAux false (('\n' :: ' ' :: ' ' :: ' ' :: ' ' :: []) ++
          ((cleanFieldLine dd provider tn f).data ++ (('\n' :: []) ++ B))) =
          ' ' :: ((cleanFieldLine dd provider tn f).data ++
            (' ' :: collapseWsAux false B)) := by
        rw [collapse_run _ (by simp) (by decide) _
          (headNonWs_append_left _ _ hne hhead), e2]
      exact e3
    | cons g gs =>
      have e1 := ih (by simp) (fun x hx => hok x (List.mem_cons_of_mem f hx)) B hB
      have e2 : collapseWsAux false ((',' :: []) ++ ('\n' ::
          ((joinSep ",\n" ((g :: gs).map (exportFieldDef dd provider tn))).data ++
            ('\n' :: B)))) =
          ',' :: ' ' :: ((joinSep ", "
            ((g :: gs).map (cleanFieldLine dd provider tn))).data ++
            (' ' :: collapseWsAux false B)) := by
        rw [collapse_chunk (',' :: []) (by decide) _ (Or.inl (by decide)), e1]
        rfl
      have e3 : collapseWsAux false ((cleanFieldLine dd provider tn f).data ++
          ((',' :: []) ++ ('\n' ::
            ((joinSep ",\n" ((g :: gs).map (exportFieldDef dd provider tn))).data ++
              ('\n' :: B))))) =
          (cleanFieldLine dd provider tn f).data ++
            (',' :: ' ' :: ((joinSep ", "
              ((g :: gs).map (cleanFieldLine dd provider tn))).data ++
              (' ' :: collapseWsAux false B))) := by
        rw [collapse_chunk _ hck _ (Or.inl hend), e2]
      have e4 : collapseWsAux false (('\n' :: ' ' :: ' ' :: ' ' :: ' ' :: []) ++
          ((cleanFieldLine dd provider tn f).data ++
            ((',' :: []) ++ ('\n' ::
              ((joinSep ",\n" ((g :: gs).map (exportFieldDef dd provider tn))).data ++
                ('\n' :: B)))))) =
          ' ' :: ((cleanFieldLine dd provider tn f).data ++
            (',' :: ' ' :: ((joinSep ", "
              ((g :: gs).map (cleanFieldLine dd provider tn))).data ++
              (' ' :: collapseWsAux false B)))) := by
        rw [collapse_run _ (by simp) (by decide) _
          (headNonWs_append_left _ _ hne hhead), e3]
      rw [List.map_cons, joinSep_cons_ne _ _ _ (by simp),
        List.map_cons (f := cleanFieldLine dd provider tn),
        joinSep_cons_ne _ _ _ (by simp)]
      have hLHS : ('\n' :: ((exportFieldDef dd provider tn f ++ ",\n" ++
          joinSep ",\n" (List.map (exportFieldDef dd provider tn) (g :: gs))).data ++
          ('\n' :: B))) =
          (('\n' :: ' ' :: ' ' :: ' ' :: ' ' :: []) ++
          ((cleanFieldLine dd provider tn f).data ++
            ((',' :: []) ++ ('\n' ::
              ((joinSep ",\n" ((g :: gs).map (exportFieldDef dd provider tn))).data ++
                ('\n' :: B)))))) := by
        rw [show (exportFieldDef dd provider tn f ++ ",\n" ++
          joinSep ",\n" (List.map (exportFieldDef dd provider tn) (g :: gs))).data =
          ((' ' :: ' ' :: ' ' :: ' ' :: (cleanFieldLine dd provider tn f).data) ++
            (',' :: '\n' :: [])) ++
          (joinSep ",\n" (List.map (exportFieldDef dd provider tn) (g :: gs))).data
          from rfl]
        simp only [List.append_assoc, List.cons_append, List.nil_append]
      rw [hLHS, e4]
      have hRHS : (cleanFieldLine dd provider tn f ++ ", " ++
          joinSep ", " (List.map (cleanFieldLine dd provider tn) (g :: gs))).data =
          (cleanFieldLine dd provider tn f).data ++
            (',' :: ' ' :: (joinSep ", "
              (List.map (cleanFieldLine dd provider tn) (g :: gs))).data) := by
        rw [show (cleanFieldLine dd provider tn f ++ ", " ++
          joinSep ", " (List.map (cleanFieldLine dd provider tn) (g :: gs))).data =
          ((cleanFieldLine dd provider tn f).data ++ (',' :: ' ' :: [])) ++
          (joinSep ", " (List.map (cleanFieldLine dd provider tn) (g :: gs))).data
          from rfl]
        simp only [List.append_assoc, List.cons_append, List.nil_append]
      rw [hRHS]
      simp only [List.append_assoc, List.cons_append]

/-! ## C1 helper lemmas: one statement -/

/-- The generated header is safe ahead of any continuation: position 0 fails
at the `IF` capture, and the header tail contains no C. -/
theorem safeChunk_header (B : List Char) :
    SafeChunk ("CREATE TABLE IF NOT EXISTS ".data) B := by
  intro i hi
  cases i with
  | zero => exact tmFail_header _
  | succ j =>
    show tryMatch (("REATE TABLE IF NOT EXISTS ".data : List Char).drop j ++ B) = none
    refine selfBlock_safe _ (by decide) B j ?_
    rw [show ("CREATE TABLE IF NOT EXISTS ".data : List Char).length = 27 from by
      decide] at hi
    rw [show ("REATE TABLE IF NOT EXISTS ".data : List Char).length = 26 from by
      decide]
    omega

/-- One collapsed statement is safe ahead of any continuation. -/
theorem stmt_safe (dd : DiagramData) (provider : String) (t : DiagramTable)
    (hp : provider = "postgresql" ∨ provider = "mysql" ∨ provider = "sqlite")
    (hrels : ∀ r ∈ dd.relationships, relOkB r = true)
    (ht : tableOkB t = true) :
    ∀ B, SafeChunk (cleanStatement dd provider t).data B := by
  obtain ⟨hwn, hfne, hfok⟩ := tableOk_facts t ht
  obtain ⟨hne, hword⟩ := wordOk_facts t.name hwn
  intro B
  have hd : (cleanStatement dd provider t).data =
      ("CREATE TABLE IF NOT EXISTS ".data : List Char) ++
        (t.name.data ++ ((' ' :: '(' :: ' ' :: []) ++
          ((joinSep ", " (t.fields.map (cleanFieldLine dd provider t.name))).data ++
            (' ' :: ')' :: ';' :: [])))) := by
    rw [show (cleanStatement dd provider t).data =
      (((("CREATE TABLE IF NOT EXISTS ".data ++ t.name.data) ++
        (' ' :: '(' :: ' ' :: [])) ++
        (joinSep ", " (t.fields.map (cleanFieldLine dd provider t.name))).data) ++
        (' ' :: ')' :: ';' :: [])) from rfl]
    simp only [List.append_assoc]
  rw [hd]
  refine safeChunk_seq _ _ B (safeChunk_header _) ?_
  refine safeChunk_seq _ _ B ?_ ?_
  · refine safeChunk_word t.name.data _ hword rfl ?_
    exact restBlocks_space '(' ' ' (by decide) (by decide) _
  refine safeChunk_seq _ _ B (selfBlock_safe _ (by decide) _) ?_
  refine safeChunk_seq _ _ B ?_ (selfBlock_safe _ (by decide) _)
  exact fieldsJoin_safe dd provider t.name hp hrels t.fields hfok _

/-- One raw statement collapses to its clean form ahead of any
continuation. -/
theorem stmt_collapse (dd : DiagramData) (provider : String) (t : DiagramTable)
    (hp : provider = "postgresql" ∨ provider = "mysql" ∨ provider = "sqlite")
    (hrels : ∀ r ∈ dd.relationships, relOkB r = true)
    (ht : tableOkB t = true) :
    ∀ (B : List Char),
      collapseWsAux false ((exportTableStatement dd provider t).data ++ B) =
        (cleanStatement dd provider t).data ++ collapseWsAux false B := by
  obtain ⟨hwn, hfne, hfok⟩ := tableOk_facts t ht
  obtain ⟨hne, hword⟩ := wordOk_facts t.name hwn
  intro B
  have e0 : collapseWsAux false ((')' :: ';' :: []) ++ B) =
      ')' :: ';' :: collapseWsAux false B := by
    rw [collapse_chunk (')' :: ';' :: []) (by decide) B (Or.inl (by decide))]
    rfl
  have e1 : collapseWsAux false ('\n' ::
      ((joinSep ",\n" (t.fields.map (exportFieldDef dd provider t.name))).data ++
        ('\n' :: ((')' :: ';' :: []) ++ B)))) =
      ' ' :: ((joinSep ", " (t.fields.map (cleanFieldLine dd provider t.name))).data ++
        (' ' :: (')' :: ';' :: collapseWsAux false B))) := by
    rw [fieldsJoin_collapse dd provider t.name hp hrels t.fields hfne hfok
      ((')' :: ';' :: []) ++ B) rfl, e0]
  have e2 : collapseWsAux false ((' ' :: '(' :: []) ++ ('\n' ::
      ((joinSep ",\n" (t.fields.map (exportFieldDef dd provider t.name))).data ++
        ('\n' :: ((')' :: ';' :: []) ++ B))))) =
      ' ' :: '(' :: ' ' ::
        ((joinSep ", " (t.fields.map (cleanFieldLine dd provider t.name))).data ++
          (' ' :: (')' :: ';' :: collapseWsAux false B))) := by
    rw [collapse_chunk (' ' :: '(' :: []) (by decide) _ (Or.inl (by decide)), e1]
    rfl
  have e3 : collapseWsAux false (t.name.data ++ ((' ' :: '(' :: []) ++ ('\n' ::
      ((joinSep ",\n" (t.fields.map (exportFieldDef dd provider t.name))).data ++
        ('\n' :: ((')' :: ';' :: []) ++ B)))))) =
      t.name.data ++ (' ' :: '(' :: ' ' ::
        ((joinSep ", " (t.fields.map (cleanFieldLine dd provider t.name))).data ++
          (' ' :: (')' :: ';' :: collapseWsAux false B)))) := by
    rw [collapse_chunk _ (chunkOk_word _ hword) _ (Or.inl (endsNonWs_word _ hword)), e2]
  have e4 : collapseWsAux false (("CREATE TABLE IF NOT EXISTS ".data : List Char) ++
      (t.name.data ++ ((' ' :: '(' :: []) ++ ('\n' ::
        ((joinSep ",\n" (t.fields.map (exportFieldDef dd provider t.name))).data ++
          ('\n' :: ((')' :: ';' :: []) ++ B))))))) =
      ("CREATE TABLE IF NOT EXISTS ".data : List Char) ++
        (t.name.data ++ (' ' :: '(' :: ' ' ::
          ((joinSep ", " (t.fields.map (cleanFieldLine dd provider t.name))).data ++
            (' ' :: (')' :: ';' :: collapseWsAux false B))))) := by
    rw [collapse_chunk _ (by decide) _
      (Or.inr (headNonWs_append_left _ _ hne (headNonWs_of_word _ hne hword))), e3]
  have hLHS : (exportTableStatement dd provider t).data ++ B =
      ("CREATE TABLE IF NOT EXISTS ".data : List Char) ++
        (t.name.data ++ ((' ' :: '(' :: []) ++ ('\n' ::
          ((joinSep ",\n" (t.fields.map (exportFieldDef dd provider t.name))).data ++
            ('\n' :: ((')' :: ';' :: []) ++ B)))))) := by
    rw [show (exportTableStatement dd provider t).data =
      ((("CREATE TABLE IF NOT EXISTS ".data ++ t.name.data) ++
        (' ' :: '(' :: '\n' :: [])) ++
        (joinSep ",\n" (t.fields.map (exportFieldDef dd provider t.name))).data) ++
        ('\n' :: ')' :: ';' :: []) from rfl]
    simp only [List.append_assoc, List.cons_append, List.nil_append]
  have hRHS : (cleanStatement dd provider t).data ++ collapseWsAux false B =
      ("CREATE TABLE IF NOT EXISTS ".data : List Char) ++
        (t.name.data ++ (' ' :: '(' :: ' ' ::
          ((joinSep ", " (t.fields.map (cleanFieldLine dd provider t.name))).data ++
            (' ' :: (')' :: ';' :: collapseWsAux false B))))) := by
    rw [show (cleanStatement dd provider t).data =
      (((("CREATE TABLE IF NOT EXISTS ".data ++ t.name.data) ++
        (' ' :: '(' :: ' ' :: [])) ++
        (joinSep ", " (t.fields.map (cleanFieldLine dd provider t.name))).data) ++
        (' ' :: ')' :: ';' :: [])) from rfl]
    simp only [List.append_assoc, List.cons_append, List.nil_append]
  rw [hLHS, hRHS, e4]

/-! ## C1 helper lemmas: the whole script -/

/-- The raw statement join starts with the non-whitespace C. -/
theorem join_raw_head (dd : DiagramData) (provider : String) :
    ∀ (u : DiagramTable) (us : List DiagramTable),
      headNonWsB ((joinSep "\n\n"
        ((u :: us).map (exportTableStatement dd provider))).data) = true := by
  intro u us
  cases us <;> rfl

/-- The raw statement join is a C-headed character list. -/
theorem join_raw_cons (dd : DiagramData) (provider : String)
    (u : DiagramTable) (us : List DiagramTable) :
    ∃ Y, (joinSep "\n\n"
      ((u :: us).map (exportTableStatement dd provider))).data = 'C' :: Y := by
  cases us <;> exact ⟨_, rfl⟩

/-- The clean statement join starts with the non-whitespace C. -/
theorem join_clean_head (dd : DiagramData) (provider : String) :
    ∀ (u : DiagramTable) (us : List DiagramTable),
      headNonWsB ((joinSep " "
        ((u :: us).map (cleanStatement dd provider))).data) = true := by
  intro u us
  cases us <;> rfl

/-- No dash occurs in a rendered column line. -/
theorem noDash_fieldDef (dd : DiagramData) (provider tn : String) (f : DiagramField)
    (hp : provider = "postgresql" ∨ provider = "mysql" ∨ provider = "sqlite")
    (hf : fieldOkB f = true)
    (hrels : ∀ r ∈ dd.relationships, relOkB r = true) :
    ∀ c ∈ (exportFieldDef dd provider tn f).data, ¬ c = '-' := by
  obtain ⟨hwn, htp⟩ := fieldOk_facts f hf
  obtain ⟨hne, hword⟩ := wordOk_facts f.name hwn
  have hck := (core_facts dd provider tn f hp htp hrels).1
  intro c hc
  have hc2 : c ∈ ((' ' :: ' ' :: ' ' :: ' ' :: []) ++ f.name.data) ++
      (exportFieldCore dd provider tn f).data := hc
  rcases List.mem_append.mp hc2 with h1 | h1
  · rcases List.mem_append.mp h1 with h2 | h2
    · intro he
      subst he
      revert h2
      decide
    · exact word_ne_dash c (hword c h2)
  · exact chunkOk_noDash _ hck c h1

/-- No dash occurs in a generated statement. -/
theorem noDash_stmt (dd : DiagramData) (provider : String) (t : DiagramTable)
    (hp : provider = "postgresql" ∨ provider = "mysql" ∨ provider = "sqlite")
    (ht : tableOkB t = true)
    (hrels : ∀ r ∈ dd.relationships, relOkB r = true) :
    ∀ c ∈ (exportTableStatement dd provider t).data, ¬ c = '-' := by
  obtain ⟨hwn, hfne, hfok⟩ := tableOk_facts t ht
  obtain ⟨hne, hword⟩ := wordOk_facts t.name hwn
  intro c hc
  have hc2 : c ∈ ((("CREATE TABLE IF NOT EXISTS ".data ++ t.name.data) ++
      (' ' :: '(' :: '\n' :: [])) ++
      (joinSep ",\n" (t.fields.map (exportFieldDef dd provider t.name))).data) ++
      ('\n' :: ')' :: ';' :: []) := hc
  rcases List.mem_append.mp hc2 with h1 | h1
  swap
  · intro he; subst he; revert h1; decide
  rcases List.mem_append.mp h1 with h2 | h2
  swap
  · exact joinSep_forall (fun x => ¬ x = '-') ",\n" (by decide) _
      (fun s hs x hx => by
        obtain ⟨g, hg, hgs⟩ := List.mem_map.mp hs
        rw [← hgs] at hx
        exact noDash_fieldDef dd provider t.name g hp (hfok g hg) hrels x hx) c h2
  rcases List.mem_append.mp h2 with h3 | h3
  swap
  · intro he; subst he; revert h3; decide
  rcases List.mem_append.mp h3 with h4 | h4
  · intro he; subst he; revert h4; decide
  · exact word_ne_dash c (hword c h4)

/-- No dash occurs in the generated script. -/
theorem noDash_script (dd : DiagramData) (provider : String)
    (hp : provider = "postgresql" ∨ provider = "mysql" ∨ provider = "sqlite")
    (hta : ∀ t ∈ dd.tables, tableOkB t = true)
    (hrels : ∀ r ∈ dd.relationships, relOkB r = true) :
    ∀ c ∈ (joinSep "\n\n"
      (dd.tables.map (exportTableStatement dd provider))).data, ¬ c = '-' := by
  refine joinSep_forall (fun x => ¬ x = '-') "\n\n" (by decide) _ ?_
  intro s hs x hx
  obtain ⟨t, htm, hts⟩ := List.mem_map.mp hs
  rw [← hts] at hx
  exact noDash_stmt dd provider t hp (hta t htm) hrels x hx

/-- The clean statement join ends in a semicolon. -/
theorem ends_semi (dd : DiagramData) (provider : String) :
    ∀ (ts : List DiagramTable), ts ≠ [] →
      ∃ A, (joinSep " " (ts.map (cleanStatement dd provider))).data = A ++ [';'] := by
  intro ts
  induction ts with
  | nil => intro h; exact absurd rfl h
  | cons t ts2 ih =>
    intro _
    cases ts2 with
    | nil =>
      refine ⟨((("CREATE TABLE IF NOT EXISTS ".data ++ t.name.data) ++
        (' ' :: '(' :: ' ' :: [])) ++
        (joinSep ", " (t.fields.map (cleanFieldLine dd provider t.name))).data) ++
        (' ' :: ')' :: []), ?_⟩
      rw [show (joinSep " " ((t :: []).map (cleanStatement dd provider))).data =
        ((("CREATE TABLE IF NOT EXISTS ".data ++ t.name.data) ++
          (' ' :: '(' :: ' ' :: [])) ++
          (joinSep ", " (t.fields.map (cleanFieldLine dd provider t.name))).data) ++
          (' ' :: ')' :: ';' :: []) from rfl]
      simp only [List.append_assoc, List.cons_append, List.nil_append]
    | cons u us =>
      obtain ⟨A, hA⟩ := ih (by simp)
      rw [List.map_cons, joinSep_cons_ne _ _ _ (by simp)]
      refine ⟨((cleanStatement dd provider t).data ++ (' ' :: [])) ++ A, ?_⟩
      rw [show (cleanStatement dd provider t ++ " " ++
        joinSep " " (List.map (cleanStatement dd provider) (u :: us))).data =
        ((cleanStatement dd provider t).data ++ (' ' :: [])) ++
        (joinSep " " (List.map (cleanStatement dd provider) (u :: us))).data from rfl]
      rw [hA, ← List.append_assoc]

/-- Trimming is the identity on a non-whitespace-headed,
semicolon-terminated list. -/
theorem trim_clean (l : List Char) (h1 : headNonWsB l = true) (A : List Char)
    (h2 : l = A ++ [';']) : trimL l = l := by
  have hd1 : l.dropWhile isWsChar = l := by
    cases l with
    | nil => rfl
    | cons c cs =>
      have hcw : ¬ isWsChar c = true := by
        have hh : headNonWsB (c :: cs) = !isWsChar c := rfl
        rw [hh, Bool.not_eq_true'] at h1
        simp [h1]
      rw [List.dropWhile_cons, if_neg hcw]
  rw [show trimL l = ((l.dropWhile isWsChar).reverse.dropWhile isWsChar).reverse
    from rfl, hd1, h2]
  simp only [List.reverse_append, List.reverse_singleton, List.singleton_append]
  rw [List.dropWhile_cons, if_neg (by decide)]
  simp only [List.reverse_cons, List.reverse_reverse]

/-- Comment stripping is the identity on dash-free text. -/
theorem strip_id (P : List Char) (h : ∀ c ∈ P, ¬ c = '-') :
    stripCommentsAux 0 P = P := by
  have := stripComments_append_no_dash P h []
  rw [List.append_nil, show stripCommentsAux 0 ([] : List Char) = [] from rfl,
    List.append_nil] at this
  exact this

/-- The raw statement join collapses to the clean statement join. -/
theorem render_collapse (dd : DiagramData) (provider : String)
    (hp : provider = "postgresql" ∨ provider = "mysql" ∨ provider = "sqlite")
    (hrels : ∀ r ∈ dd.relationships, relOkB r = true) :
    ∀ (ts : List DiagramTable), ts ≠ [] → (∀ t ∈ ts, tableOkB t = true) →
      collapseWsAux false
        ((joinSep "\n\n" (ts.map (exportTableStatement dd provider))).data) =
      (joinSep " " (ts.map (cleanStatement dd provider))).data := by
  intro ts
  induction ts with
  | nil => intro h; exact absurd rfl h
  | cons t ts2 ih =>
    intro _ hok
    cases ts2 with
    | nil =>
      have := stmt_collapse dd provider t hp hrels
        (hok t (List.mem_singleton.mpr rfl)) []
      rw [List.append_nil,
        show collapseWsAux false ([] : List Char) = [] from rfl,
        List.append_nil] at this
      exact this
    | cons u us =>
      have e1 := ih (by simp) (fun x hx => hok x (List.mem_cons_of_mem t hx))
      have e2 : collapseWsAux false (('\n' :: '\n' :: []) ++
          (joinSep "\n\n" ((u :: us).map (exportTableStatement dd provider))).data) =
          ' ' :: (joinSep " " ((u :: us).map (cleanStatement dd provider))).data := by
        rw [collapse_run _ (by simp) (by decide) _ (join_raw_head dd provider u us), e1]
      have e3 : collapseWsAux false ((exportTableStatement dd provider t).data ++
          (('\n' :: '\n' :: []) ++
          (joinSep "\n\n" ((u :: us).map (exportTableStatement dd provider))).data)) =
          (cleanStatement dd provider t).data ++
            (' ' :: (joinSep " " ((u :: us).map (cleanStatement dd provider))).data) := by
        rw [stmt_collapse dd provider t hp hrels (hok t (List.mem_cons_self t (u :: us))),
          e2]
      rw [List.map_cons, joinSep_cons_ne _ _ _ (by simp),
        List.map_cons (f := cleanStatement dd provider),
        joinSep_cons_ne _ _ _ (by simp)]
      rw [show (exportTableStatement dd provider t ++ "\n\n" ++
        joinSep "\n\n" (List.map (exportTableStatement dd provider) (u :: us))).data =
        ((exportTableStatement dd provider t).data ++ ('\n' :: '\n' :: [])) ++
        (joinSep "\n\n" (List.map (exportTableStatement dd provider) (u :: us))).data
        from rfl]
      rw [List.append_assoc, e3]
      rw [show (cleanStatement dd provider t ++ " " ++
        joinSep " " (List.map (cleanStatement dd provider) (u :: us))).data =
        ((cleanStatement dd provider t).data ++ (' ' :: [])) ++
        (joinSep " " (List.map (cleanStatement dd provider) (u :: us))).data from rfl]
      rw [List.append_assoc]
      rfl

/-- The clean statement join is safe everywhere. -/
theorem render_safe (dd : DiagramData) (provider : String)
    (hp : provider = "postgresql" ∨ provider = "mysql" ∨ provider = "sqlite")
    (hrels : ∀ r ∈ dd.relationships, relOkB r = true) :
    ∀ (ts : List DiagramTable), (∀ t ∈ ts, tableOkB t = true) →
      SafeL (joinSep " " (ts.map (cleanStatement dd provider))).data := by
  intro ts
  induction ts with
  | nil =>
    intro _
    exact safeL_nil
  | cons t ts2 ih =>
    intro hok
    cases ts2 with
    | nil =>
      have := safe_append (cleanStatement dd provider t).data []
        (stmt_safe dd provider t hp hrels (hok t (List.mem_singleton.mpr rfl)) [])
        safeL_nil
      rwa [List.append_nil] at this
    | cons u us =>
      rw [List.map_cons, joinSep_cons_ne _ _ _ (by simp)]
      have hd : (cleanStatement dd provider t ++ " " ++
          joinSep " " (List.map (cleanStatement dd provider) (u :: us))).data =
          ((cleanStatement dd provider t).data ++ (' ' :: [])) ++
          (joinSep " " (List.map (cleanStatement dd provider) (u :: us))).data := rfl
      rw [hd]
      refine safe_append _ _ ?_ (ih (fun x hx => hok x (List.mem_cons_of_mem t hx)))
      refine safeChunk_seq _ _ _ ?_ (selfBlock_safe _ (by decide) _)
      exact stmt_safe dd provider t hp hrels (hok t (List.mem_cons_self t (u :: us))) _

/-! ## C1: round-trip stability -/

/-- The parser-side cleanup of the generated script is exactly the clean
render. -/
theorem cleanSQL_export (dd : DiagramData) (provider : String)
    (hp : provider = "postgresql" ∨ provider = "mysql" ∨ provider = "sqlite")
    (hdd : ddOkB dd = true) (t : DiagramTable) (ts : List DiagramTable)
    (hts : dd.tables = t :: ts) :
    cleanSQL (exportSchemaAsSQL dd provider) =
      (joinSep " " ((t :: ts).map (cleanStatement dd provider))).data := by
  obtain ⟨hta, hrels⟩ := ddOk_facts dd hdd
  have hta2 : ∀ x ∈ t :: ts, tableOkB x = true := by
    rw [← hts]
    exact hta
  have hexp : exportSchemaAsSQL dd provider =
      joinSep "\n\n" ((t :: ts).map (exportTableStatement dd provider)) := by
    simp only [exportSchemaAsSQL, hts]
    rw [if_neg (by simp)]
  rw [show cleanSQL (exportSchemaAsSQL dd provider) =
    trimL (collapseWsAux false
      (stripCommentsAux 0 (exportSchemaAsSQL dd provider).data)) from rfl]
  rw [hexp]
  rw [strip_id _ (by
    intro c hc
    have hnd := noDash_script dd provider hp hta hrels
    rw [hts] at hnd
    exact hnd c hc)]
  rw [render_collapse dd provider hp hrels (t :: ts) (by simp) hta2]
  obtain ⟨A, hA⟩ := ends_semi dd provider (t :: ts) (by simp)
  exact trim_clean _ (join_clean_head dd provider t ts) A hA

/-- Claim C1 (amended): parsing the generator's own output loses every
table, because the scanner's regex requires `CREATE TABLE name (` while the
generator emits a `CREATE TABLE IF NOT EXISTS` header (after `TABLE` and
whitespace the captured word is `IF`, and the next character is `N`, not the
required parenthesis), and no other position of the generated script can
match.  Hence for every well-formed diagram schema (identifier table, column
and relationship-target names, at least one column per table, canonical
logical column types) and each of the postgresql, mysql and sqlite dialects,
the parse of the generated SQL is the empty schema, regenerating from that
reparse yields the empty string -- not the original script, which is
nonempty whenever a table exists -- and round-trip stability fails for every
nonempty schema. -/
theorem roundTrip_lost (dd : DiagramData) (provider : String)
    (hp : provider = "postgresql" ∨ provider = "mysql" ∨ provider = "sqlite")
    (hdd : ddOkB dd = true) :
    parseSQL (exportSchemaAsSQL dd provider) =
      { tables := [], relationships := [] } ∧
    reparseExport (exportSchemaAsSQL dd provider) provider = "" ∧
    (dd.tables ≠ [] → exportSchemaAsSQL dd provider ≠ "") := by
  obtain ⟨hta, hrels⟩ := ddOk_facts dd hdd
  have hparse : parseSQL (exportSchemaAsSQL dd provider) =
      { tables := [], relationships := [] } := by
    cases hts : dd.tables with
    | nil =>
      have hemp : exportSchemaAsSQL dd provider = "" := by
        simp [exportSchemaAsSQL, hts]
      rw [hemp]
      decide
    | cons t ts =>
      have hclean := cleanSQL_export dd provider hp hdd t ts hts
      have hsafe : SafeL (joinSep " "
          ((t :: ts).map (cleanStatement dd provider))).data := by
        refine render_safe dd provider hp hrels (t :: ts) ?_
        rw [← hts]
        exact hta
      have hscan : scanTables
          ((cleanSQL (exportSchemaAsSQL dd provider)).length + 1)
          (cleanSQL (exportSchemaAsSQL dd provider)) = [] := by
        rw [hclean]
        exact scan_of_safe _ _ hsafe
      simp only [parseSQL]
      rw [hscan]
      rfl
  refine ⟨hparse, ?_, ?_⟩
  · simp only [reparseExport, hparse]
    rfl
  · intro htne hemp
    cases hts : dd.tables with
    | nil => exact htne hts
    | cons t ts =>
      have hexp : exportSchemaAsSQL dd provider =
          joinSep "\n\n" ((t :: ts).map (exportTableStatement dd provider)) := by
        simp only [exportSchemaAsSQL, hts]
        rw [if_neg (by simp)]
      obtain ⟨Y, hY⟩ := join_raw_cons dd provider t ts
      rw [hexp] at hemp
      have hdata := congrArg String.data hemp
      rw [hY] at hdata
      exact List.cons_ne_nil 'C' Y hdata

/-- Witness for the amended C1 at the one-table schema and the postgresql
dialect. -/
theorem roundTrip_lost_witness :
    parseSQL (exportSchemaAsSQL roundTripSchema "postgresql") =
      { tables := [], relationships := [] } ∧
    reparseExport (exportSchemaAsSQL roundTripSchema "postgresql") "postgresql" = "" ∧
    (roundTripSchema.tables ≠ [] →
      exportSchemaAsSQL roundTripSchema "postgresql" ≠ "") :=
  roundTrip_lost roundTripSchema "postgresql" (Or.inl rfl) (by decide)
